import Mathlib

/-- Lookup of the (first) binding of `key`; models `t[key]` / `Map.get`. -/
def assocGet [DecidableEq κ] : List (κ × β) → κ → Option β
  | [], _ => none
  | (k, v) :: rest, key => if k = key then some v else assocGet rest key

/-- Write a binding; models `t[key] = v` / `Map.set(key, v)`:
an existing key is updated in place, a new key is appended. -/
def assocSet [DecidableEq κ] : List (κ × β) → κ → β → List (κ × β)
  | [], key, v => [(key, v)]
  | (k, w) :: rest, key, v =>
    if k = key then (key, v) :: rest else (k, w) :: assocSet rest key v

/-- Remove a binding; models `Map.delete(key)`.  Returns whether the key
was present, together with the remaining bindings. -/
def assocDelete [DecidableEq κ] : List (κ × β) → κ → Bool × List (κ × β)
  | [], _ => (false, [])
  | (k, w) :: rest, key =>
    if k = key then (true, rest)
    else
      let r := assocDelete rest key
      (r.1, (k, w) :: r.2)

/-- The keys of an association list, in order. -/
def keysOf (t : List (κ × β)) : List κ := t.map Prod.fst

/-- The per-handle handler set `Map<number, handler>`, in insertion order. -/
abbrev OperationIdArray (α : Type) := List (Nat × α)

/-- The handle-keyed table `{[key in keyof Operations]?: OperationIdArray}`. -/
abbrev ClassOperationMap (α : Type) := List (String × OperationIdArray α)

/-- Which handler table an `OperationExternalIdentifier`'s `group` field
references.  The source stores a direct reference to the table object; the
embedding stores a selector that is resolved through the owning dispatcher
(the tables themselves are assigned once and only ever mutated in place, so
the selector resolves to the same table the reference would). -/
inductive TableGroup where
  | primary
  | post
  | incoming
  deriving DecidableEq, Repr

/-- The external identifier `{group, handle, id}` returned by a subscribe
operation and consumed by `unbind`. -/
structure OperationExternalIdentifier where
  group : TableGroup
  handle : String
  id : Nat
  deriving DecidableEq, Repr

/-- State of `BaseDispatcher`: the monotonic registration counter and the
two handler tables (primary and post).  `α` is the handler type (opaque:
the embedding never calls local handlers, it logs the calls instead). -/
structure BaseDispatcher (α : Type) where
  caseNumber : Nat
  boundOperations : ClassOperationMap α
  boundPostOperations : ClassOperationMap α
  deriving Repr

/-- A freshly constructed `BaseDispatcher` (the constructor only prints). -/
def BaseDispatcher.init : BaseDispatcher α :=
  { caseNumber := 0, boundOperations := [], boundPostOperations := [] }

/-- State of `BaseServerDispatcher`, extending the base state with the
incoming-event table and the single-responder function table.
`ε` is the inbound event-handler type and `φ` the function-responder type. -/
structure ServerDispatcher (ε φ : Type) extends BaseDispatcher ε where
  incomingEvents : ClassOperationMap ε
  incomingFunctions : List (String × φ)
  deriving Repr

/-- A freshly constructed `BaseServerDispatcher`. -/
def ServerDispatcher.init : ServerDispatcher ε φ :=
  { caseNumber := 0, boundOperations := [], boundPostOperations := [],
    incomingEvents := [], incomingFunctions := [] }

/-- Resolve a `TableGroup` selector to the table it denotes. -/
def ServerDispatcher.groupTable (d : ServerDispatcher ε φ) : TableGroup → ClassOperationMap ε
  | .primary => d.boundOperations
  | .post => d.boundPostOperations
  | .incoming => d.incomingEvents

/-- Store back the table a `TableGroup` selector denotes. -/
def ServerDispatcher.setGroupTable (d : ServerDispatcher ε φ) :
    TableGroup → ClassOperationMap ε → ServerDispatcher ε φ
  | .primary, t => { d with boundOperations := t }
  | .post, t => { d with boundPostOperations := t }
  | .incoming, t => { d with incomingEvents := t }

/-- Source `bindListen(handle, operations, handler)`: take the next `caseNumber`,
create the per-handle map if absent, insert the handler under the fresh id,
and return the external identifier `{group, handle, id}`. -/
def ServerDispatcher.bindListen (d : ServerDispatcher ε φ) (g : TableGroup) (handle : String)
    (handler : ε) : ServerDispatcher ε φ × OperationExternalIdentifier :=
  let caseNumber := d.caseNumber
  let operations := d.groupTable g
  let boundOperations := (assocGet operations handle).getD []
  let d' := d.setGroupTable g (assocSet operations handle (assocSet boundOperations caseNumber handler))
  ({ d' with caseNumber := caseNumber + 1 }, ⟨g, handle, caseNumber⟩)

/-- Source `listen(handle, handler)`: register a primary handler. -/
def ServerDispatcher.listen (d : ServerDispatcher ε φ) (handle : String) (handler : ε) :
    ServerDispatcher ε φ × OperationExternalIdentifier :=
  d.bindListen .primary handle handler

/-- Source `listenPost(handle, handler)`: register a post handler. -/
def ServerDispatcher.listenPost (d : ServerDispatcher ε φ) (handle : String) (handler : ε) :
    ServerDispatcher ε φ × OperationExternalIdentifier :=
  d.bindListen .post handle handler

/-- Source `on(handle, handler)` (server): register an inbound event handler. -/
def ServerDispatcher.on (d : ServerDispatcher ε φ) (handle : String) (handler : ε) :
    ServerDispatcher ε φ × OperationExternalIdentifier :=
  d.bindListen .incoming handle handler

/-- Source `handle(handle, handler)` (server): register the single function
responder for `handle`, silently replacing any previous one.  Returns no
identifier. -/
def ServerDispatcher.handle (d : ServerDispatcher ε φ) (h : String) (handler : φ) :
    ServerDispatcher ε φ :=
  { d with incomingFunctions := assocSet d.incomingFunctions h handler }

/-- Source `unbind(operationIdentifier)`: index the per-handle map referenced by
the identifier's group and `delete` the id from it.  If that map does not
exist, indexing `undefined` raises — modelled by `none`.  Otherwise the
result is whether a registration was actually deleted, with the new state. -/
def ServerDispatcher.unbind (d : ServerDispatcher ε φ) (ι : OperationExternalIdentifier) :
    Option (Bool × ServerDispatcher ε φ) :=
  match assocGet (d.groupTable ι.group) ι.handle with
  | none => none
  | some searchingMap =>
    let r := assocDelete searchingMap ι.id
    some (r.1, d.setGroupTable ι.group (assocSet (d.groupTable ι.group) ι.handle r.2))

/-- Source `dispatch(handle, ...args)` observed as its sequence of handler calls:
every primary handler for `handle` in table order (called with `args`
unchanged), then every post handler in table order.  `A` is the opaque
argument-tuple type; the state is not changed by the fan-out itself
(mutation by re-entrant handlers is modelled separately below). -/
def BaseDispatcher.dispatchCalls (d : BaseDispatcher α) (handle : String) (args : A) :
    List (α × A) :=
  let dispatchQueue := assocGet d.boundOperations handle
  let postDispatchQueue := assocGet d.boundPostOperations handle
  (match dispatchQueue with
   | none => []
   | some q => q.map fun kf => (kf.2, args)) ++
  (match postDispatchQueue with
   | none => []
   | some q => q.map fun kf => (kf.2, args))

/-- Source `dispatch` on the server dispatcher (inherited from the base class). -/
def ServerDispatcher.dispatchCalls (d : ServerDispatcher ε φ) (handle : String) (args : A) :
    List (ε × A) :=
  d.toBaseDispatcher.dispatchCalls handle args

/-- The sender of a remote message. -/
structure Player where
  name : String
  deriving DecidableEq, Repr

/-- An argument value crossing the boundary: either a sender identity or
ordinary data (`V` is the opaque data type). -/
inductive Val (V : Type) where
  | player (p : Player)
  | data (v : V)
  deriving DecidableEq, Repr

/-- Source `verifyRemoteExistance(key, table)`: the key must be a string and a
present key of the table. -/
def verifyRemoteExistance [DecidableEq κ] (key : Option κ) (table : List (κ × β)) : Bool :=
  match key with
  | none => false
  | some s => (assocGet table s).isSome

/-- Source `handleEvent(player, handle, ...args)` (server): invoke every inbound
event handler registered for `handle`, in table order, with the sender
prepended to the arguments. -/
def ServerDispatcher.handleEventCalls (d : ServerDispatcher ε φ) (player : Player)
    (handle : String) (args : List (Val V)) : List (ε × List (Val V)) :=
  match assocGet d.incomingEvents handle with
  | none => []
  | some incomingEvents => incomingEvents.map fun kf => (kf.2, Val.player player :: args)

/-- Source `onEvent(player, boundHandle, ...args)` (server): validate the handle
against `incomingEvents`; on failure emit one warning naming the sender and
invoke nothing, on success hand over to `handleEvent`.  Result: the emitted
warnings and the handler calls. -/
def ServerDispatcher.onEvent (d : ServerDispatcher ε φ) (player : Player)
    (boundHandle : Option String) (args : List (Val V)) :
    List String × List (ε × List (Val V)) :=
  if verifyRemoteExistance boundHandle d.incomingEvents then
    match boundHandle with
    | some h => ([], d.handleEventCalls player h args)
    | none => ([], [])  -- unreachable: verification requires a string key
  else
    ([player.name ++ " tried to fire a non-existant event!"], [])

/-- Source `handleFunction(player, handle, ...args)` (server): call the single
registered responder with the sender prepended.  `none` models the raise
from calling an absent responder (unreachable via `onFunction`). -/
def ServerDispatcher.handleFunction (d : ServerDispatcher ε (Player → List (Val V) → R))
    (player : Player) (handle : String) (args : List (Val V)) : Option R :=
  (assocGet d.incomingFunctions handle).map fun handler => handler player args

/-- Source `onFunction(player, boundHandle, ...args)` (server): validate the handle
against `incomingFunctions`; on failure emit one warning and return no
result, on success return the responder's result (routed back to the
caller of `invoke`). -/
def ServerDispatcher.onFunction (d : ServerDispatcher ε (Player → List (Val V) → R))
    (player : Player) (boundHandle : Option String) (args : List (Val V)) :
    List String × Option R :=
  if verifyRemoteExistance boundHandle d.incomingFunctions then
    match boundHandle with
    | some h => ([], d.handleFunction player h args)
    | none => ([], none)  -- unreachable: verification requires a string key
  else
    ([player.name ++ " tried to fire a non-existant function!"], none)

/-- Source `invoke(handle, ...args)` (client): the request travels over the
`RemoteFunction` channel and arrives at the server's `onFunction` with the
invoking player as sender; the single reply is its result. -/
def invokeServer (d : ServerDispatcher ε (Player → List (Val V) → R)) (player : Player)
    (handle : String) (args : List (Val V)) : Option R :=
  (d.onFunction player (some handle) args).2

/-- Source `handleEvent(handle, ...args)` (client): the client performs no
validation at all — the wire handle is passed straight to `dispatch`.  A
non-string handle indexes both tables without a match, invoking nothing.
No warning is ever emitted on this path.  Result: warnings and calls, as
for the server side. -/
def BaseClientDispatcher.handleEvent (d : BaseDispatcher α) (boundEvent : Option String)
    (args : List (Val V)) : List String × List (α × List (Val V)) :=
  match boundEvent with
  | some h => ([], d.dispatchCalls h args)
  | none => ([], [])

/-- All registration ids stored in a table are below `c`. -/
def tableIdsBelow (t : ClassOperationMap α) (c : Nat) : Prop :=
  ∀ p ∈ t, ∀ q ∈ p.2, q.1 < c

/-- All ids of every table of the dispatcher are below its counter. -/
def ServerDispatcher.IdsBelow (d : ServerDispatcher ε φ) : Prop :=
  tableIdsBelow d.boundOperations d.caseNumber ∧
  tableIdsBelow d.boundPostOperations d.caseNumber ∧
  tableIdsBelow d.incomingEvents d.caseNumber

/-- The handlers registered under `handle` in the table `g` selects, in
registration order. -/
def ServerDispatcher.handlersAt (d : ServerDispatcher ε φ) (g : TableGroup) (h : String) :
    List ε :=
  ((assocGet (d.groupTable g) h).getD []).map Prod.snd

/-- A subscribe-style call on a server dispatcher: `listen`, `listenPost`,
`on`, or `handle`. -/
inductive RegOp (ε φ : Type) where
  | listen (h : String) (f : ε)
  | listenPost (h : String) (f : ε)
  | onReg (h : String) (f : ε)
  | handleReg (h : String) (f : φ)

/-- Apply one subscribe call (discarding the returned identifier). -/
def ServerDispatcher.applyReg (d : ServerDispatcher ε φ) : RegOp ε φ → ServerDispatcher ε φ
  | .listen h f => (d.listen h f).1
  | .listenPost h f => (d.listenPost h f).1
  | .onReg h f => (d.on h f).1
  | .handleReg h f => d.handle h f

/-- Run a sequence of subscribe calls in order. -/
def ServerDispatcher.runRegOps (d : ServerDispatcher ε φ) :
    List (RegOp ε φ) → ServerDispatcher ε φ
  | [] => d
  | op :: ops => (d.applyReg op).runRegOps ops

/-- The handler one subscribe call contributes to the table `g` selects
under handle `h` (at most one). -/
def regContrib (g : TableGroup) (h : String) : RegOp ε φ → List ε
  | .listen h' f =>
    match g with
    | .primary => if h' = h then [f] else []
    | _ => []
  | .listenPost h' f =>
    match g with
    | .post => if h' = h then [f] else []
    | _ => []
  | .onReg h' f =>
    match g with
    | .incoming => if h' = h then [f] else []
    | _ => []
  | .handleReg _ _ => []

/-- The handlers a sequence of subscribe calls registers into the table `g`
selects under handle `h`, in call order. -/
def regsFor (g : TableGroup) (h : String) : List (RegOp ε φ) → List ε
  | [] => []
  | op :: ops => regContrib g h op ++ regsFor g h ops

/-- Lookup of a single registration: the handler stored in the table `g`
selects, under handle `h`, with id `i` (if any). -/
def ServerDispatcher.regLookup (d : ServerDispatcher ε φ) (g : TableGroup) (h : String)
    (i : Nat) : Option ε :=
  match assocGet (d.groupTable g) h with
  | none => none
  | some m => assocGet m i

/-- Whether the client dispatcher has any registration for a wire handle
(primary or post table).  A non-string handle matches nothing. -/
def clientKnows (c : BaseDispatcher α) : Option String → Bool
  | none => false
  | some h => (assocGet c.boundOperations h).isSome || (assocGet c.boundPostOperations h).isSome

/-- A public registry-affecting call on a server dispatcher. -/
inductive SubOp (ε φ : Type) where
  | listen (h : String) (f : ε)
  | listenPost (h : String) (f : ε)
  | onOp (h : String) (f : ε)
  | handleOp (h : String) (f : φ)
  | unbindOp (ι : OperationExternalIdentifier)
  | dispatchOp (h : String)

/-- Whether a call is `handle(h, ·)` for the given handle `h`. -/
def SubOp.isHandleFor (h : String) : SubOp ε φ → Bool
  | .handleOp h' _ => h' == h
  | _ => false

/-- Run one call.  `none` models a crash (an error raised out of the call).
The second component is the identifier the call returned when it is a
subscribe call (`handle` returns nothing, and so do `unbind`/`dispatch`).
`dispatch` is the pure fan-out of `dispatchCalls`, which leaves the
registries unchanged; mutation by re-entrant handlers during a pass is
modelled separately by the effect-handler semantics below. -/
def ServerDispatcher.runOp (d : ServerDispatcher ε φ) :
    SubOp ε φ → Option (ServerDispatcher ε φ × Option OperationExternalIdentifier)
  | .listen h f => some ((d.listen h f).1, some (d.listen h f).2)
  | .listenPost h f => some ((d.listenPost h f).1, some (d.listenPost h f).2)
  | .onOp h f => some ((d.on h f).1, some (d.on h f).2)
  | .handleOp h f => some (d.handle h f, none)
  | .unbindOp ι =>
    match d.unbind ι with
    | none => none
    | some r => some (r.2, none)
  | .dispatchOp _ => some (d, none)

/-- Run a sequence of calls in order; `none` as soon as one crashes. -/
def ServerDispatcher.runOps (d : ServerDispatcher ε φ) :
    List (SubOp ε φ) → Option (ServerDispatcher ε φ)
  | [] => some d
  | op :: ops =>
    match d.runOp op with
    | none => none
    | some r => r.1.runOps ops

/-- The registration ids returned by the subscribe calls of a run, in call
order (nothing more is returned after a crash). -/
def ServerDispatcher.runIds (d : ServerDispatcher ε φ) : List (SubOp ε φ) → List Nat
  | [] => []
  | op :: ops =>
    match d.runOp op with
    | none => []
    | some r => (r.2.map fun ι => ι.id).toList ++ r.1.runIds ops

/-- All registration ids stored anywhere in a table, in table order. -/
def tblIds (t : ClassOperationMap α) : List Nat := (t.map fun p => keysOf p.2).flatten

/-- All registration ids stored in any of the three id-keyed tables. -/
def ServerDispatcher.allIds (d : ServerDispatcher ε φ) : List Nat :=
  tblIds d.boundOperations ++ tblIds d.boundPostOperations ++ tblIds d.incomingEvents

/-- Well-formedness: the ids stored across the three tables are pairwise
distinct and all below the counter. -/
def ServerDispatcher.IdsOk (d : ServerDispatcher ε φ) : Prop :=
  d.allIds.Nodup ∧ ∀ k ∈ d.allIds, k < d.caseNumber

/-- The per-handle map referenced by `(g, h)` exists in the dispatcher.
`bindListen` creates it at registration time and no operation ever removes
it, even when it becomes empty. -/
def ServerDispatcher.keyLive (d : ServerDispatcher ε φ) (g : TableGroup) (h : String) :
    Prop :=
  (assocGet (d.groupTable g) h).isSome = true

/-- One registry effect of a re-entrant handler: unbind a registration of
a primary (`isPost = false`) or post table, or register a new handler
(with its own effects) via `listen`/`listenPost`. -/
inductive HEffect where
  | unbindEff (isPost : Bool) (h : String) (id : Nat)
  | listenEff (isPost : Bool) (h : String) (sub : List HEffect)

/-- A re-entrant handler: the list of effects it performs when invoked. -/
abbrev MHandler := List HEffect

/-- Dispatcher state for the re-entrant dispatch semantics. -/
abbrev MState := BaseDispatcher MHandler

/-- The primary (`false`) or post (`true`) table. -/
def BaseDispatcher.phaseTable (d : BaseDispatcher α) (isPost : Bool) :
    ClassOperationMap α :=
  if isPost then d.boundPostOperations else d.boundOperations

/-- Store back the primary or post table. -/
def BaseDispatcher.setPhaseTable (d : BaseDispatcher α) (isPost : Bool)
    (t : ClassOperationMap α) : BaseDispatcher α :=
  if isPost then { d with boundPostOperations := t } else { d with boundOperations := t }

/-- Apply one handler effect; mirrors `bindListen` and `unbind` on the base
tables.  (`unbind` on a never-created per-handle map raises in the source;
identifiers issued by the dispatcher always reference a live map — see C9 —
so the effect applies only then and is a no-op otherwise.) -/
def applyEffect (d : MState) : HEffect → MState
  | .listenEff isPost h sub =>
    let caseNumber := d.caseNumber
    let t := d.phaseTable isPost
    let boundOperations := (assocGet t h).getD []
    { d.setPhaseTable isPost (assocSet t h (assocSet boundOperations caseNumber sub)) with
        caseNumber := caseNumber + 1 }
  | .unbindEff isPost h id =>
    match assocGet (d.phaseTable isPost) h with
    | none => d
    | some m => d.setPhaseTable isPost (assocSet (d.phaseTable isPost) h (assocDelete m id).2)

/-- Invoke a handler: apply its effects in order. -/
def applyEffects (d : MState) (effs : List HEffect) : MState :=
  effs.foldl applyEffect d

/-- The next entry of the live map iteration: the entry with the least id
at least `w` currently in the map. -/
def nextFrom : OperationIdArray β → Nat → Option (Nat × β)
  | [], _ => none
  | (k, f) :: rest, w =>
    if k < w then nextFrom rest w
    else
      match nextFrom rest w with
      | none => some (k, f)
      | some (k', f') => if k' < k then some (k', f') else some (k, f)

/-- The ids currently registered for `handle` in the primary/post table. -/
def idsInMap (d : MState) (isPost : Bool) (handle : String) : List Nat :=
  keysOf ((assocGet (d.phaseTable isPost) handle).getD [])

/-- One dispatch phase over the live per-handle map: invoke the next entry
past the watermark `w`, apply its effects, continue past its id.  Returns
the final state, the ids invoked in order, and whether the iteration ran to
completion within the fuel. -/
def runPhase (isPost : Bool) (handle : String) : Nat → Nat → MState → MState × List Nat × Bool
  | 0, _, d => (d, ([], false))
  | fuel + 1, w, d =>
    match nextFrom ((assocGet (d.phaseTable isPost) handle).getD []) w with
    | none => (d, ([], true))
    | some (k, effs) =>
      let r := runPhase isPost handle fuel (k + 1) (applyEffects d effs)
      (r.1, (k :: r.2.1, r.2.2))

/-- Source `dispatch(handle, ...args)` with re-entrant handlers.  Both queue
references are captured up front, exactly as in the source (`dispatchQueue`
and `postDispatchQueue` are read before any handler runs, so a queue that
does not exist at entry is skipped even if a handler creates it mid-pass);
then the primary phase runs over the live primary map, then the post phase
over the live post map. -/
def dispatchRun (fuel : Nat) (d : MState) (handle : String) : MState × List Nat × Bool :=
  let dispatchQueue := assocGet d.boundOperations handle
  let postDispatchQueue := assocGet d.boundPostOperations handle
  let r1 := if dispatchQueue.isSome then runPhase false handle fuel 0 d else (d, ([], true))
  let r2 := if postDispatchQueue.isSome then runPhase true handle fuel 0 r1.1
    else (r1.1, ([], true))
  (r2.1, (r1.2.1 ++ r2.2.1, r1.2.2 && r2.2.2))

/-- Well-formedness for the re-entrant semantics: every stored id is below
the counter, and no id lives in both the primary and the post table. -/
def MWF (d : MState) : Prop :=
  (∀ b, ∀ k ∈ tblIds (d.phaseTable b), k < d.caseNumber) ∧
  ∀ k ∈ tblIds (d.phaseTable false), k ∉ tblIds (d.phaseTable true)

/-! ## Theorems -/

theorem keysOf_nil : keysOf ([] : List (κ × β)) = [] := rfl

theorem keysOf_cons (p : κ × β) (l : List (κ × β)) :
    keysOf (p :: l) = p.1 :: keysOf l := rfl

theorem assocGet_assocSet_self [DecidableEq κ] (t : List (κ × β)) (k : κ) (v : β) :
    assocGet (assocSet t k v) k = some v := by
  induction t with
  | nil => simp [assocSet, assocGet]
  | cons p rest ih =>
    obtain ⟨pk, pv⟩ := p
    by_cases h : pk = k <;> simp [assocSet, assocGet, h, ih]

theorem assocGet_assocSet_ne [DecidableEq κ] (t : List (κ × β)) (k k' : κ) (v : β)
    (h : k' ≠ k) : assocGet (assocSet t k v) k' = assocGet t k' := by
  have hk : k ≠ k' := fun h' => h h'.symm
  induction t with
  | nil => simp [assocSet, assocGet, hk]
  | cons p rest ih =>
    obtain ⟨pk, pv⟩ := p
    by_cases hp : pk = k
    · subst hp
      simp [assocSet, assocGet, hk]
    · by_cases hp' : pk = k' <;> simp [assocSet, assocGet, hp, hp', h, ih]

theorem assocSet_of_get_eq_some [DecidableEq κ] (t : List (κ × β)) (k : κ) (v : β)
    (h : assocGet t k = some v) : assocSet t k v = t := by
  induction t with
  | nil => simp [assocGet] at h
  | cons p rest ih =>
    obtain ⟨pk, pv⟩ := p
    by_cases hp : pk = k
    · simp [assocGet, hp] at h
      simp [assocSet, hp, ← h]
    · simp [assocGet, hp] at h
      simp [assocSet, hp, ih h]

theorem assocSet_of_get_eq_none [DecidableEq κ] (t : List (κ × β)) (k : κ) (v : β)
    (h : assocGet t k = none) : assocSet t k v = t ++ [(k, v)] := by
  induction t with
  | nil => simp [assocSet]
  | cons p rest ih =>
    obtain ⟨pk, pv⟩ := p
    by_cases hp : pk = k
    · simp [assocGet, hp] at h
    · simp [assocGet, hp] at h
      simp [assocSet, hp, ih h]

theorem assocGet_eq_none_iff [DecidableEq κ] (t : List (κ × β)) (k : κ) :
    assocGet t k = none ↔ k ∉ keysOf t := by
  induction t with
  | nil => simp [assocGet, keysOf_nil]
  | cons p rest ih =>
    obtain ⟨pk, pv⟩ := p
    by_cases hp : pk = k
    · simp [assocGet, keysOf_cons, hp]
    · have hne : ¬k = pk := fun hh => hp hh.symm
      simp [assocGet, keysOf_cons, hp, hne, ih]

theorem assocGet_isSome_iff [DecidableEq κ] (t : List (κ × β)) (k : κ) :
    (assocGet t k).isSome ↔ k ∈ keysOf t := by
  rw [Option.isSome_iff_ne_none]
  constructor
  · intro h
    by_contra hk
    exact h ((assocGet_eq_none_iff t k).2 hk)
  · intro h hn
    exact ((assocGet_eq_none_iff t k).1 hn) h

theorem assocGet_mem [DecidableEq κ] (t : List (κ × β)) (k : κ) (v : β)
    (h : assocGet t k = some v) : (k, v) ∈ t := by
  induction t with
  | nil => simp [assocGet] at h
  | cons p rest ih =>
    obtain ⟨pk, pv⟩ := p
    by_cases hp : pk = k
    · simp [assocGet, hp] at h
      simp [hp, h]
    · simp [assocGet, hp] at h
      exact List.mem_cons_of_mem _ (ih h)

theorem assocDelete_fst [DecidableEq κ] (t : List (κ × β)) (k : κ) :
    (assocDelete t k).1 = (assocGet t k).isSome := by
  induction t with
  | nil => simp [assocDelete, assocGet]
  | cons p rest ih =>
    obtain ⟨pk, pv⟩ := p
    by_cases hp : pk = k <;> simp [assocDelete, assocGet, hp, ih]

theorem assocDelete_sublist [DecidableEq κ] (t : List (κ × β)) (k : κ) :
    (assocDelete t k).2.Sublist t := by
  induction t with
  | nil => simp [assocDelete]
  | cons p rest ih =>
    by_cases hp : p.1 = k
    · simp [assocDelete, hp]
    · simpa [assocDelete, hp] using List.Sublist.cons₂ p ih

theorem assocGet_assocDelete_ne [DecidableEq κ] (t : List (κ × β)) (k k' : κ)
    (h : k' ≠ k) : assocGet (assocDelete t k).2 k' = assocGet t k' := by
  have hk : k ≠ k' := fun h' => h h'.symm
  induction t with
  | nil => simp [assocDelete]
  | cons p rest ih =>
    obtain ⟨pk, pv⟩ := p
    by_cases hp : pk = k
    · subst hp
      simp [assocDelete, assocGet, hk]
    · by_cases hp' : pk = k' <;> simp [assocDelete, assocGet, hp, hp', h, ih]

theorem assocGet_assocDelete_self [DecidableEq κ] (t : List (κ × β)) (k : κ)
    (hnd : (keysOf t).Nodup) : assocGet (assocDelete t k).2 k = none := by
  induction t with
  | nil => simp [assocDelete, assocGet]
  | cons p rest ih =>
    obtain ⟨pk, pv⟩ := p
    rw [show keysOf ((pk, pv) :: rest) = pk :: keysOf rest from rfl,
      List.nodup_cons] at hnd
    by_cases hp : pk = k
    · subst hp
      simp only [assocDelete, if_pos rfl]
      exact (assocGet_eq_none_iff rest pk).2 hnd.1
    · simp [assocDelete, assocGet, hp]
      exact ih hnd.2

theorem keysOf_assocDelete_subset [DecidableEq κ] (t : List (κ × β)) (k k' : κ)
    (h : k' ∈ keysOf (assocDelete t k).2) : k' ∈ keysOf t := by
  have := (assocDelete_sublist t k).map Prod.fst
  exact this.mem h

theorem keysOf_assocSet_subset [DecidableEq κ] (t : List (κ × β)) (k k' : κ) (v : β)
    (h : k' ∈ keysOf (assocSet t k v)) : k' = k ∨ k' ∈ keysOf t := by
  induction t with
  | nil => simpa [assocSet, keysOf_cons, keysOf_nil] using h
  | cons p rest ih =>
    obtain ⟨pk, pv⟩ := p
    by_cases hp : pk = k
    · subst hp
      simp [assocSet, keysOf_cons] at h ⊢
      tauto
    · simp [assocSet, keysOf_cons, hp] at h ⊢
      rcases h with h | h
      · tauto
      · rcases ih h with h' | h' <;> tauto

/-! ## Basic facts about the tables and `bindListen` -/

theorem mem_keysOf_iff (t : List (κ × β)) (k : κ) :
    k ∈ keysOf t ↔ ∃ v, (k, v) ∈ t := by
  constructor
  · intro h
    rcases List.mem_map.1 h with ⟨p, hp, hpk⟩
    exact ⟨p.2, by rwa [show (k, p.2) = p from by rw [← hpk]]⟩
  · rintro ⟨v, hv⟩
    exact List.mem_map.2 ⟨(k, v), hv, rfl⟩

theorem assocSet_mem_cases [DecidableEq κ] (t : List (κ × β)) (k : κ) (v : β)
    (p : κ × β) (h : p ∈ assocSet t k v) : p = (k, v) ∨ p ∈ t := by
  induction t with
  | nil => simpa [assocSet] using h
  | cons q rest ih =>
    obtain ⟨qk, qv⟩ := q
    by_cases hq : qk = k
    · subst hq
      simp [assocSet] at h
      rcases h with h | h
      · exact Or.inl h
      · exact Or.inr (List.mem_cons_of_mem _ h)
    · simp [assocSet, hq] at h
      rcases h with h | h
      · exact Or.inr (by simp [h])
      · rcases ih h with h' | h'
        · exact Or.inl h'
        · exact Or.inr (List.mem_cons_of_mem _ h')

theorem tableIdsBelow_mono (t : ClassOperationMap α) (c c' : Nat) (hcc : c ≤ c')
    (h : tableIdsBelow t c) : tableIdsBelow t c' :=
  fun p hp q hq => lt_of_lt_of_le (h p hp q hq) hcc

theorem tableIdsBelow_nil (c : Nat) : tableIdsBelow ([] : ClassOperationMap α) c := by
  intro p hp
  simp at hp

theorem ServerDispatcher.init_IdsBelow : (ServerDispatcher.init : ServerDispatcher ε φ).IdsBelow :=
  ⟨tableIdsBelow_nil _, tableIdsBelow_nil _, tableIdsBelow_nil _⟩

theorem groupTable_setGroupTable_same (d : ServerDispatcher ε φ) (g : TableGroup)
    (t : ClassOperationMap ε) : (d.setGroupTable g t).groupTable g = t := by
  cases g <;> rfl

theorem groupTable_setGroupTable_ne (d : ServerDispatcher ε φ) (g g' : TableGroup)
    (t : ClassOperationMap ε) (h : g' ≠ g) :
    (d.setGroupTable g t).groupTable g' = d.groupTable g' := by
  cases g <;> cases g' <;> first | rfl | exact absurd rfl h

theorem setGroupTable_caseNumber (d : ServerDispatcher ε φ) (g : TableGroup)
    (t : ClassOperationMap ε) : (d.setGroupTable g t).caseNumber = d.caseNumber := by
  cases g <;> rfl

theorem setGroupTable_incomingFunctions (d : ServerDispatcher ε φ) (g : TableGroup)
    (t : ClassOperationMap ε) : (d.setGroupTable g t).incomingFunctions = d.incomingFunctions := by
  cases g <;> rfl

theorem bindListen_caseNumber (d : ServerDispatcher ε φ) (g : TableGroup) (h : String)
    (f : ε) : (d.bindListen g h f).1.caseNumber = d.caseNumber + 1 := rfl

theorem bindListen_snd (d : ServerDispatcher ε φ) (g : TableGroup) (h : String) (f : ε) :
    (d.bindListen g h f).2 = ⟨g, h, d.caseNumber⟩ := rfl

theorem bindListen_incomingFunctions (d : ServerDispatcher ε φ) (g : TableGroup)
    (h : String) (f : ε) :
    (d.bindListen g h f).1.incomingFunctions = d.incomingFunctions := by
  show (d.setGroupTable g _).incomingFunctions = _
  exact setGroupTable_incomingFunctions ..

theorem bindListen_groupTable_same (d : ServerDispatcher ε φ) (g : TableGroup) (h : String)
    (f : ε) :
    (d.bindListen g h f).1.groupTable g =
      assocSet (d.groupTable g) h
        (assocSet ((assocGet (d.groupTable g) h).getD []) d.caseNumber f) := by
  show (d.setGroupTable g _).groupTable g = _
  exact groupTable_setGroupTable_same ..

theorem bindListen_groupTable_ne (d : ServerDispatcher ε φ) (g g' : TableGroup) (h : String)
    (f : ε) (hg : g' ≠ g) :
    (d.bindListen g h f).1.groupTable g' = d.groupTable g' := by
  show (d.setGroupTable g _).groupTable g' = _
  exact groupTable_setGroupTable_ne _ _ _ _ hg

theorem bindListen_handlersAt_same (d : ServerDispatcher ε φ) (g : TableGroup) (h : String)
    (f : ε) (hwf : tableIdsBelow (d.groupTable g) d.caseNumber) :
    (d.bindListen g h f).1.handlersAt g h = d.handlersAt g h ++ [f] := by
  have hfresh : assocGet ((assocGet (d.groupTable g) h).getD []) d.caseNumber = none := by
    apply (assocGet_eq_none_iff _ _).2
    intro hk
    rcases (mem_keysOf_iff _ _).1 hk with ⟨v, hv⟩
    cases hm : assocGet (d.groupTable g) h with
    | none => rw [hm] at hv; simp at hv
    | some m =>
      rw [hm] at hv
      simp at hv
      exact absurd (hwf _ (assocGet_mem _ _ _ hm) _ hv) (lt_irrefl _)
  rw [ServerDispatcher.handlersAt, bindListen_groupTable_same,
    assocGet_assocSet_self, assocSet_of_get_eq_none _ _ _ hfresh]
  simp [ServerDispatcher.handlersAt]

theorem bindListen_handlersAt_other (d : ServerDispatcher ε φ) (g g' : TableGroup)
    (h h' : String) (f : ε) (hne : g' ≠ g ∨ h' ≠ h) :
    (d.bindListen g h f).1.handlersAt g' h' = d.handlersAt g' h' := by
  by_cases hg : g' = g
  · subst hg
    have hh : h' ≠ h := hne.resolve_left (by simp)
    rw [ServerDispatcher.handlersAt, bindListen_groupTable_same,
      assocGet_assocSet_ne _ _ _ _ hh]
    rfl
  · rw [ServerDispatcher.handlersAt, bindListen_groupTable_ne _ _ _ _ _ hg]
    rfl

theorem bindListen_IdsBelow (d : ServerDispatcher ε φ) (g : TableGroup) (h : String)
    (f : ε) (hwf : d.IdsBelow) : (d.bindListen g h f).1.IdsBelow := by
  obtain ⟨h1, h2, h3⟩ := hwf
  have key : ∀ g' : TableGroup, tableIdsBelow (d.groupTable g') d.caseNumber := by
    intro g'
    cases g' <;> assumption
  have hset : tableIdsBelow ((d.bindListen g h f).1.groupTable g) (d.caseNumber + 1) := by
    rw [bindListen_groupTable_same]
    intro p hp q hq
    rcases assocSet_mem_cases _ _ _ _ hp with hp' | hp'
    · subst hp'
      rcases assocSet_mem_cases _ _ _ _ hq with hq' | hq'
      · subst hq'
        exact Nat.lt_succ_self _
      · cases hm : assocGet (d.groupTable g) h with
        | none => rw [hm] at hq'; simp at hq'
        | some m =>
          rw [hm] at hq'
          simp at hq'
          exact Nat.lt_succ_of_lt (key g _ (assocGet_mem _ _ _ hm) _ hq')
    · exact Nat.lt_succ_of_lt (key g _ hp' _ hq)
  have hother : ∀ g' : TableGroup, g' ≠ g →
      tableIdsBelow ((d.bindListen g h f).1.groupTable g') (d.caseNumber + 1) := by
    intro g' hg
    rw [bindListen_groupTable_ne _ _ _ _ _ hg]
    exact tableIdsBelow_mono _ _ _ (Nat.le_succ _) (key g')
  have main : ∀ g' : TableGroup,
      tableIdsBelow ((d.bindListen g h f).1.groupTable g') (d.caseNumber + 1) := by
    intro g'
    by_cases hg : g' = g
    · subst hg; exact hset
    · exact hother g' hg
  refine ⟨?_, ?_, ?_⟩
  · simpa [bindListen_caseNumber] using main .primary
  · simpa [bindListen_caseNumber] using main .post
  · simpa [bindListen_caseNumber] using main .incoming

theorem handle_groupTable (d : ServerDispatcher ε φ) (h : String) (f : φ)
    (g : TableGroup) : (d.handle h f).groupTable g = d.groupTable g := by
  cases g <;> rfl

theorem handle_caseNumber (d : ServerDispatcher ε φ) (h : String) (f : φ) :
    (d.handle h f).caseNumber = d.caseNumber := rfl

theorem applyReg_IdsBelow (d : ServerDispatcher ε φ) (op : RegOp ε φ)
    (hwf : d.IdsBelow) : (d.applyReg op).IdsBelow := by
  cases op with
  | listen h f => exact bindListen_IdsBelow _ _ _ _ hwf
  | listenPost h f => exact bindListen_IdsBelow _ _ _ _ hwf
  | onReg h f => exact bindListen_IdsBelow _ _ _ _ hwf
  | handleReg h f => exact hwf

theorem runRegOps_handlersAt (ops : List (RegOp ε φ)) (d : ServerDispatcher ε φ)
    (hwf : d.IdsBelow) (g : TableGroup) (h : String) :
    (d.runRegOps ops).handlersAt g h = d.handlersAt g h ++ regsFor g h ops := by
  induction ops generalizing d with
  | nil => simp [ServerDispatcher.runRegOps, regsFor]
  | cons op ops ih =>
    have step : (d.applyReg op).handlersAt g h =
        d.handlersAt g h ++ regContrib g h op := by
      have key : ∀ g' : TableGroup, tableIdsBelow (d.groupTable g') d.caseNumber := by
        intro g'
        obtain ⟨h1, h2, h3⟩ := hwf
        cases g' <;> assumption
      cases op with
      | listen h' f =>
        cases g with
        | primary =>
          by_cases hh : h' = h
          · subst hh
            simpa [regContrib] using bindListen_handlersAt_same d .primary h' f (key .primary)
          · simpa [regContrib, hh] using
              bindListen_handlersAt_other d .primary .primary h' h f (Or.inr (fun hc => hh hc.symm))
        | post => simpa [regContrib] using bindListen_handlersAt_other d .primary .post h' h f (by simp)
        | incoming => simpa [regContrib] using bindListen_handlersAt_other d .primary .incoming h' h f (by simp)
      | listenPost h' f =>
        cases g with
        | primary => simpa [regContrib] using bindListen_handlersAt_other d .post .primary h' h f (by simp)
        | post =>
          by_cases hh : h' = h
          · subst hh
            simpa [regContrib] using bindListen_handlersAt_same d .post h' f (key .post)
          · simpa [regContrib, hh] using
              bindListen_handlersAt_other d .post .post h' h f (Or.inr (fun hc => hh hc.symm))
        | incoming => simpa [regContrib] using bindListen_handlersAt_other d .post .incoming h' h f (by simp)
      | onReg h' f =>
        cases g with
        | primary => simpa [regContrib] using bindListen_handlersAt_other d .incoming .primary h' h f (by simp)
        | post => simpa [regContrib] using bindListen_handlersAt_other d .incoming .post h' h f (by simp)
        | incoming =>
          by_cases hh : h' = h
          · subst hh
            simpa [regContrib] using bindListen_handlersAt_same d .incoming h' f (key .incoming)
          · simpa [regContrib, hh] using
              bindListen_handlersAt_other d .incoming .incoming h' h f (Or.inr (fun hc => hh hc.symm))
      | handleReg h' f =>
        simp [ServerDispatcher.applyReg, ServerDispatcher.handlersAt, handle_groupTable, regContrib]
    calc (d.runRegOps (op :: ops)).handlersAt g h
        = ((d.applyReg op).runRegOps ops).handlersAt g h := rfl
      _ = (d.applyReg op).handlersAt g h ++ regsFor g h ops :=
          ih _ (applyReg_IdsBelow d op hwf)
      _ = d.handlersAt g h ++ regsFor g h (op :: ops) := by
          rw [step, regsFor, List.append_assoc]

theorem handlersAt_init (g : TableGroup) (h : String) :
    (ServerDispatcher.init : ServerDispatcher ε φ).handlersAt g h = [] := by
  cases g <;> rfl

theorem dispatchCalls_eq_handlers (d : ServerDispatcher ε φ) (h : String) (args : A) :
    d.dispatchCalls h args =
      (d.handlersAt .primary h).map (fun f => (f, args)) ++
      (d.handlersAt .post h).map (fun f => (f, args)) := by
  show d.toBaseDispatcher.dispatchCalls h args = _
  rw [BaseDispatcher.dispatchCalls]
  have e1 : d.toBaseDispatcher.boundOperations = d.groupTable .primary := rfl
  have e2 : d.toBaseDispatcher.boundPostOperations = d.groupTable .post := rfl
  rw [e1, e2, ServerDispatcher.handlersAt, ServerDispatcher.handlersAt]
  cases assocGet (d.groupTable .primary) h <;>
    cases assocGet (d.groupTable .post) h <;>
      simp [List.map_map, Function.comp_def]

/-- Claim C1 (functional correctness): for every sequence of subscribe calls
on the dispatcher, `dispatch(handle, args)` invokes exactly the primary
handlers registered under `handle` (via `listen`), in registration
(increasing-id) order, each with `args`, and only after all of them the
post handlers registered under the same `handle` (via `listenPost`), also
in registration order. -/
theorem dispatch_runs_primary_then_post_in_registration_order
    (ops : List (RegOp ε φ)) (h : String) (args : A) :
    (ServerDispatcher.runRegOps .init ops).dispatchCalls h args =
      (regsFor .primary h ops).map (fun f => (f, args)) ++
      (regsFor .post h ops).map (fun f => (f, args)) := by
  rw [dispatchCalls_eq_handlers,
    runRegOps_handlersAt ops _ ServerDispatcher.init_IdsBelow .primary h,
    runRegOps_handlersAt ops _ ServerDispatcher.init_IdsBelow .post h,
    handlersAt_init, handlersAt_init]
  simp

/-! ## Claim C2 -/

theorem assocDelete_of_get_eq_none [DecidableEq κ] (t : List (κ × β)) (k : κ)
    (h : assocGet t k = none) : (assocDelete t k).2 = t := by
  induction t with
  | nil => simp [assocDelete]
  | cons p rest ih =>
    obtain ⟨pk, pv⟩ := p
    by_cases hp : pk = k
    · simp [assocGet, hp] at h
    · simp [assocGet, hp] at h
      simp [assocDelete, hp, ih h]

theorem setGroupTable_self (d : ServerDispatcher ε φ) (g : TableGroup) :
    d.setGroupTable g (d.groupTable g) = d := by
  cases g <;> rfl

theorem setGroupTable_setGroupTable (d : ServerDispatcher ε φ) (g : TableGroup)
    (t t' : ClassOperationMap ε) :
    (d.setGroupTable g t).setGroupTable g t' = d.setGroupTable g t' := by
  cases g <;> rfl

/-- Claim C2 (error handling): for an identifier whose registration exists
(as every identifier freshly returned by `listen`/`listenPost`/`on` does),
the first `unbind` removes exactly that one registration and returns
`true`; every other registration in every table, the function-responder
table and the id counter are untouched; and a second `unbind` with the
same identifier raises no error, returns `false`, and changes nothing. -/
theorem unbind_removes_exactly_one_and_is_idempotent
    (d : ServerDispatcher ε φ) (ι : OperationExternalIdentifier) (m : OperationIdArray ε)
    (hm : assocGet (d.groupTable ι.group) ι.handle = some m)
    (hnd : (keysOf m).Nodup)
    (hk : (assocGet m ι.id).isSome = true) :
    ∃ d', d.unbind ι = some (true, d') ∧
      d'.regLookup ι.group ι.handle ι.id = none ∧
      (∀ g h i, g ≠ ι.group ∨ h ≠ ι.handle ∨ i ≠ ι.id →
        d'.regLookup g h i = d.regLookup g h i) ∧
      d'.incomingFunctions = d.incomingFunctions ∧
      d'.caseNumber = d.caseNumber ∧
      d'.unbind ι = some (false, d') := by
  have hgone : assocGet (assocDelete m ι.id).2 ι.id = none :=
    assocGet_assocDelete_self m ι.id hnd
  have hdel1 : (assocDelete m ι.id).1 = true := by
    rw [assocDelete_fst, hk]
  refine ⟨d.setGroupTable ι.group
    (assocSet (d.groupTable ι.group) ι.handle (assocDelete m ι.id).2), ?_, ?_, ?_, ?_, ?_, ?_⟩
  · simp only [ServerDispatcher.unbind, hm, hdel1]
  · rw [ServerDispatcher.regLookup, groupTable_setGroupTable_same, assocGet_assocSet_self]
    exact hgone
  · intro g h i hne
    by_cases hg : g = ι.group
    · subst hg
      rw [ServerDispatcher.regLookup, ServerDispatcher.regLookup,
        groupTable_setGroupTable_same]
      by_cases hh : h = ι.handle
      · subst hh
        have hi : i ≠ ι.id := by tauto
        rw [assocGet_assocSet_self, hm]
        exact assocGet_assocDelete_ne m ι.id i hi
      · rw [assocGet_assocSet_ne _ _ _ _ hh]
    · rw [ServerDispatcher.regLookup, ServerDispatcher.regLookup,
        groupTable_setGroupTable_ne _ _ _ _ hg]
  · exact setGroupTable_incomingFunctions ..
  · exact setGroupTable_caseNumber ..
  · have hground : (d.setGroupTable ι.group
        (assocSet (d.groupTable ι.group) ι.handle (assocDelete m ι.id).2)).groupTable ι.group =
        assocSet (d.groupTable ι.group) ι.handle (assocDelete m ι.id).2 :=
      groupTable_setGroupTable_same ..
    have e1 : assocGet ((d.setGroupTable ι.group
        (assocSet (d.groupTable ι.group) ι.handle (assocDelete m ι.id).2)).groupTable ι.group)
        ι.handle = some (assocDelete m ι.id).2 := by
      rw [hground]
      exact assocGet_assocSet_self ..
    have e2 : (assocDelete (assocDelete m ι.id).2 ι.id).1 = false := by
      rw [assocDelete_fst, hgone]
      rfl
    have e3 : (assocDelete (assocDelete m ι.id).2 ι.id).2 = (assocDelete m ι.id).2 :=
      assocDelete_of_get_eq_none _ _ hgone
    simp only [ServerDispatcher.unbind, e1, e2, e3]
    rw [hground, assocSet_of_get_eq_some _ _ _ (assocGet_assocSet_self ..),
      setGroupTable_setGroupTable]

/-- Witness for C2: two primary registrations under `"a"`; unbinding the
first (id 0) behaves as stated. -/
theorem unbind_removes_exactly_one_and_is_idempotent_witness :
    ∃ d', (ServerDispatcher.runRegOps (ε := Nat) (φ := Nat) .init
        [.listen "a" 10, .listen "a" 11]).unbind ⟨.primary, "a", 0⟩ = some (true, d') ∧
      d'.regLookup .primary "a" 0 = none ∧
      (∀ g h i, g ≠ TableGroup.primary ∨ h ≠ "a" ∨ i ≠ 0 →
        d'.regLookup g h i = (ServerDispatcher.runRegOps (ε := Nat) (φ := Nat) .init
          [.listen "a" 10, .listen "a" 11]).regLookup g h i) ∧
      d'.incomingFunctions = (ServerDispatcher.runRegOps (ε := Nat) (φ := Nat) .init
        [.listen "a" 10, .listen "a" 11]).incomingFunctions ∧
      d'.caseNumber = (ServerDispatcher.runRegOps (ε := Nat) (φ := Nat) .init
        [.listen "a" 10, .listen "a" 11]).caseNumber ∧
      d'.unbind ⟨.primary, "a", 0⟩ = some (false, d') :=
  unbind_removes_exactly_one_and_is_idempotent _ _ [(0, 10), (1, 11)]
    rfl (by decide) rfl

/-- Counterexample to C3 as stated: on the **client** receiving side, a
message whose handle has no registration produces **zero** diagnostic
warnings (the client performs no validation and never calls `warn`),
not exactly one. -/
theorem client_unknown_handle_emits_no_warning :
    (BaseClientDispatcher.handleEvent (BaseDispatcher.init : BaseDispatcher Nat)
        (some "foo") ([] : List (Val Nat))).1.length = 0 ∧
    (BaseClientDispatcher.handleEvent (BaseDispatcher.init : BaseDispatcher Nat)
        (some "foo") ([] : List (Val Nat))).1.length ≠ 1 :=
  ⟨rfl, by decide⟩

/-- Claim C3 (corrected): a remote message with an unregistered handle
invokes zero handlers on either receiving side; the **server** emits
exactly one diagnostic warning (identifying the sender), while the
**client** emits none, because the client performs no validation at all
and silently falls through to a no-op dispatch. -/
theorem unknown_handle_warns_once_on_server_and_is_silent_on_client
    (d : ServerDispatcher ε φ) (player : Player) (wh : Option String) (args : List (Val V))
    (hsrv : verifyRemoteExistance wh d.incomingEvents = false)
    (c : BaseDispatcher α) (cwh : Option String) (cargs : List (Val W))
    (hcl : clientKnows c cwh = false) :
    (d.onEvent player wh args).1 = [player.name ++ " tried to fire a non-existant event!"] ∧
    (d.onEvent player wh args).2 = [] ∧
    BaseClientDispatcher.handleEvent c cwh cargs = ([], []) := by
  refine ⟨?_, ?_, ?_⟩
  · simp [ServerDispatcher.onEvent, hsrv]
  · simp [ServerDispatcher.onEvent, hsrv]
  · cases cwh with
    | none => rfl
    | some h =>
      simp [clientKnows] at hcl
      simp [BaseClientDispatcher.handleEvent, BaseDispatcher.dispatchCalls, hcl.1, hcl.2]

/-- Witness for C3 (corrected): a server and a client with a single
registration each, receiving the unregistered handle `"nope"`. -/
theorem unknown_handle_warns_once_on_server_and_is_silent_on_client_witness :
    ((ServerDispatcher.runRegOps (ε := Nat) (φ := Nat) .init [.onReg "foo" 1]).onEvent
        ⟨"mallory"⟩ (some "nope") ([] : List (Val Nat))).1 =
      ["mallory tried to fire a non-existant event!"] ∧
    ((ServerDispatcher.runRegOps (ε := Nat) (φ := Nat) .init [.onReg "foo" 1]).onEvent
        ⟨"mallory"⟩ (some "nope") ([] : List (Val Nat))).2 = [] ∧
    BaseClientDispatcher.handleEvent (BaseDispatcher.init : BaseDispatcher Nat)
      (some "nope") ([] : List (Val Nat)) = ([], []) :=
  unknown_handle_warns_once_on_server_and_is_silent_on_client
    _ _ _ _ (by decide) _ _ _ (by decide)

/-! ## Claim C4 -/

theorem handleEventCalls_eq_handlers (d : ServerDispatcher ε φ) (player : Player)
    (h : String) (args : List (Val V)) :
    d.handleEventCalls player h args =
      (d.handlersAt .incoming h).map fun f => (f, Val.player player :: args) := by
  rw [ServerDispatcher.handleEventCalls, ServerDispatcher.handlersAt,
    show d.incomingEvents = d.groupTable .incoming from rfl]
  cases assocGet (d.groupTable .incoming) h <;>
    simp [List.map_map, Function.comp_def]

theorem onEvent_valid (d : ServerDispatcher ε φ) (player : Player) (h : String)
    (args : List (Val V)) (hv : (assocGet d.incomingEvents h).isSome = true) :
    d.onEvent player (some h) args = ([], d.handleEventCalls player h args) := by
  simp [ServerDispatcher.onEvent, verifyRemoteExistance, hv]

/-- Claim C4 (functional correctness): an inbound message with a valid handle
on the server (the receiving side of the trust boundary) invokes every
handler registered for that handle via `on`, in registration order, each
with the sender prepended as the first argument before the original
arguments; a purely local `dispatch` passes the arguments unchanged, with
no sender present. -/
theorem on_handlers_invoked_in_order_with_sender_prepended
    (ops : List (RegOp ε φ)) (h : String) (player : Player) (args : List (Val V))
    (hvalid : (assocGet (ServerDispatcher.runRegOps (ε := ε) (φ := φ) .init
      ops).incomingEvents h).isSome = true) :
    (ServerDispatcher.runRegOps (ε := ε) (φ := φ) .init ops).onEvent player (some h) args =
      ([], (regsFor .incoming h ops).map fun f => (f, Val.player player :: args)) ∧
    ∀ (d : ServerDispatcher ε φ) (h' : String) (args' : A) (c : ε × A),
      c ∈ d.dispatchCalls h' args' → c.2 = args' := by
  constructor
  · rw [onEvent_valid _ _ _ _ hvalid, handleEventCalls_eq_handlers,
      runRegOps_handlersAt ops _ ServerDispatcher.init_IdsBelow .incoming h,
      handlersAt_init]
    rfl
  · intro d h' args' c hc
    rw [dispatchCalls_eq_handlers] at hc
    rcases List.mem_append.1 hc with hc' | hc' <;>
      · rcases List.mem_map.1 hc' with ⟨f, _, hf⟩
        rw [← hf]

/-- Witness for C4: `on("foo", h1)` then `on("foo", h2)`, then a remote
`foo` message from `bob` with payload `[41]`. -/
theorem on_handlers_invoked_in_order_with_sender_prepended_witness :
    (ServerDispatcher.runRegOps (ε := Nat) (φ := Nat) .init
        [.onReg "foo" 1, .onReg "foo" 2]).onEvent ⟨"bob"⟩ (some "foo") [Val.data 41] =
      ([], (regsFor .incoming "foo" [RegOp.onReg "foo" 1, RegOp.onReg (φ := Nat) "foo" 2]).map
        fun f => (f, Val.player ⟨"bob"⟩ :: [Val.data 41])) ∧
    ∀ (d : ServerDispatcher Nat Nat) (h' : String) (args' : List Nat) (c : Nat × List Nat),
      c ∈ d.dispatchCalls h' args' → c.2 = args' :=
  on_handlers_invoked_in_order_with_sender_prepended
    [.onReg "foo" 1, .onReg "foo" 2] "foo" ⟨"bob"⟩ [Val.data 41] (by decide)

/-- Claim C5 (functional correctness): after `handle(h, f1)` then
`handle(h, f2)`, an `invoke(h, args)` routed to this side returns exactly
`f2`'s result; the responder stored for `h` is exactly `f2` (`f1` is fully
replaced and no longer present under `h`), and responders for all other
handles are untouched. -/
theorem second_handle_registration_replaces_first
    (d : ServerDispatcher ε (Player → List (Val V) → R)) (h : String)
    (f1 f2 : Player → List (Val V) → R) (player : Player) (args : List (Val V)) :
    invokeServer ((d.handle h f1).handle h f2) player h args = some (f2 player args) ∧
    assocGet ((d.handle h f1).handle h f2).incomingFunctions h = some f2 ∧
    ∀ k, k ≠ h →
      assocGet ((d.handle h f1).handle h f2).incomingFunctions k =
        assocGet d.incomingFunctions k := by
  have hstore : assocGet ((d.handle h f1).handle h f2).incomingFunctions h = some f2 :=
    assocGet_assocSet_self ..
  refine ⟨?_, hstore, ?_⟩
  · have hv : verifyRemoteExistance (some h) ((d.handle h f1).handle h f2).incomingFunctions
        = true := by
      rw [verifyRemoteExistance, hstore]
      rfl
    rw [invokeServer, ServerDispatcher.onFunction, if_pos hv]
    rw [ServerDispatcher.handleFunction, hstore]
    rfl
  · intro k hk
    show assocGet (assocSet (assocSet d.incomingFunctions h f1) h f2) k = _
    rw [assocGet_assocSet_ne _ _ _ _ hk, assocGet_assocSet_ne _ _ _ _ hk]

theorem tblIds_nil : tblIds ([] : ClassOperationMap α) = [] := rfl

theorem tblIds_cons (p : String × OperationIdArray α) (t : ClassOperationMap α) :
    tblIds (p :: t) = keysOf p.2 ++ tblIds t := rfl

theorem tblIds_append (t t' : ClassOperationMap α) :
    tblIds (t ++ t') = tblIds t ++ tblIds t' := by
  simp [tblIds]

theorem mem_tblIds_of_get (t : ClassOperationMap α) (h : String) (m : OperationIdArray α)
    (hm : assocGet t h = some m) (k : Nat) (hk : k ∈ keysOf m) : k ∈ tblIds t := by
  have hmem := assocGet_mem t h m hm
  simp only [tblIds, List.mem_flatten]
  exact ⟨keysOf m, List.mem_map.2 ⟨(h, m), hmem, rfl⟩, hk⟩

theorem tblIds_assocSet_split (t : ClassOperationMap α) (h : String)
    (m m' : OperationIdArray α) (hm : assocGet t h = some m) :
    ∃ P S, tblIds t = P ++ (keysOf m ++ S) ∧
      tblIds (assocSet t h m') = P ++ (keysOf m' ++ S) := by
  induction t with
  | nil => simp [assocGet] at hm
  | cons p rest ih =>
    obtain ⟨pk, pm⟩ := p
    by_cases hp : pk = h
    · subst hp
      simp [assocGet] at hm
      subst hm
      refine ⟨[], tblIds rest, by simp [tblIds_cons], ?_⟩
      simp [assocSet, tblIds_cons]
    · simp [assocGet, hp] at hm
      rcases ih hm with ⟨P, S, h1, h2⟩
      refine ⟨keysOf pm ++ P, S, ?_, ?_⟩
      · simp [tblIds_cons, h1]
      · simp [assocSet, hp, tblIds_cons, h2]

/-- After a `bindListen`-shaped write with an id fresh for the whole table,
the table's id list is the old one with the fresh id inserted. -/
theorem tblIds_bindInsert (t : ClassOperationMap α) (h : String) (c : Nat) (f : α)
    (hfresh : c ∉ tblIds t) :
    ∃ P S, tblIds t = P ++ S ∧
      tblIds (assocSet t h (assocSet ((assocGet t h).getD []) c f)) = P ++ c :: S := by
  cases hm : assocGet t h with
  | none =>
    refine ⟨tblIds t, [], by simp, ?_⟩
    rw [show ((none : Option (OperationIdArray α)).getD []) = [] from rfl,
      show assocSet ([] : OperationIdArray α) c f = [(c, f)] from rfl,
      assocSet_of_get_eq_none t h _ hm, tblIds_append]
    simp [tblIds_cons, keysOf_cons, keysOf_nil, tblIds_nil]
  | some m =>
    have hcm : assocGet m c = none := by
      rw [assocGet_eq_none_iff]
      intro hc
      exact hfresh (mem_tblIds_of_get t h m hm c hc)
    rcases tblIds_assocSet_split t h m (assocSet m c f) hm with ⟨P, S, h1, h2⟩
    refine ⟨P ++ keysOf m, S, by simp [h1], ?_⟩
    rw [show ((some m).getD [] : OperationIdArray α) = m from rfl, h2,
      assocSet_of_get_eq_none m c f hcm]
    simp [keysOf, List.map_append]

theorem allIds_eq_groupTables (d : ServerDispatcher ε φ) :
    d.allIds = tblIds (d.groupTable .primary) ++
      (tblIds (d.groupTable .post) ++ tblIds (d.groupTable .incoming)) := by
  rw [ServerDispatcher.allIds, List.append_assoc]
  rfl

theorem init_IdsOk : (ServerDispatcher.init : ServerDispatcher ε φ).IdsOk := by
  constructor
  · exact List.nodup_nil
  · intro k hk
    simp [ServerDispatcher.allIds, ServerDispatcher.init, tblIds_nil] at hk

theorem bindListen_allIds (d : ServerDispatcher ε φ) (g : TableGroup) (h : String) (f : ε)
    (hfresh : d.caseNumber ∉ d.allIds) :
    ∃ P S, d.allIds = P ++ S ∧
      (d.bindListen g h f).1.allIds = P ++ d.caseNumber :: S := by
  have hsame := bindListen_groupTable_same d g h f
  have hne := bindListen_groupTable_ne d g
  rw [allIds_eq_groupTables] at hfresh
  have hf : d.caseNumber ∉ tblIds (d.groupTable g) := by
    intro hc
    apply hfresh
    cases g <;> simp [hc]
  rcases tblIds_bindInsert (d.groupTable g) h d.caseNumber f hf with ⟨P, S, h1, h2⟩
  cases g with
  | primary =>
    refine ⟨P, S ++ (tblIds (d.groupTable .post) ++ tblIds (d.groupTable .incoming)),
      ?_, ?_⟩
    · rw [allIds_eq_groupTables, h1]
      simp
    · rw [allIds_eq_groupTables, hsame, h2,
        hne .post h f (by decide), hne .incoming h f (by decide)]
      simp
  | post =>
    refine ⟨tblIds (d.groupTable .primary) ++ P,
      S ++ tblIds (d.groupTable .incoming), ?_, ?_⟩
    · rw [allIds_eq_groupTables, h1]
      simp
    · rw [allIds_eq_groupTables, hsame, h2,
        hne .primary h f (by decide), hne .incoming h f (by decide)]
      simp
  | incoming =>
    refine ⟨tblIds (d.groupTable .primary) ++ (tblIds (d.groupTable .post) ++ P), S,
      ?_, ?_⟩
    · rw [allIds_eq_groupTables, h1]
      simp
    · rw [allIds_eq_groupTables, hsame, h2,
        hne .primary h f (by decide), hne .post h f (by decide)]
      simp

theorem unbind_state (d : ServerDispatcher ε φ) (ι : OperationExternalIdentifier)
    (r : Bool × ServerDispatcher ε φ) (hs : d.unbind ι = some r) :
    ∃ m, assocGet (d.groupTable ι.group) ι.handle = some m ∧
      r.2 = d.setGroupTable ι.group
        (assocSet (d.groupTable ι.group) ι.handle (assocDelete m ι.id).2) := by
  rcases hm : assocGet (d.groupTable ι.group) ι.handle with _ | m
  · rw [ServerDispatcher.unbind, hm] at hs
    exact absurd hs (by simp)
  · refine ⟨m, rfl, ?_⟩
    simp only [ServerDispatcher.unbind, hm] at hs
    rw [← Option.some.inj hs]

theorem unbind_caseNumber (d : ServerDispatcher ε φ) (ι : OperationExternalIdentifier)
    (r : Bool × ServerDispatcher ε φ) (hs : d.unbind ι = some r) :
    r.2.caseNumber = d.caseNumber := by
  rcases unbind_state d ι r hs with ⟨m, _, h2⟩
  rw [h2, setGroupTable_caseNumber]

theorem unbind_allIds_sublist (d : ServerDispatcher ε φ) (ι : OperationExternalIdentifier)
    (r : Bool × ServerDispatcher ε φ) (hs : d.unbind ι = some r) :
    r.2.allIds.Sublist d.allIds := by
  rcases unbind_state d ι r hs with ⟨m, hm, h2⟩
  rcases tblIds_assocSet_split (d.groupTable ι.group) ι.handle m (assocDelete m ι.id).2 hm
    with ⟨P, S, e1, e2⟩
  have hsub : (keysOf (assocDelete m ι.id).2).Sublist (keysOf m) :=
    (assocDelete_sublist m ι.id).map Prod.fst
  have htab : (tblIds ((r.2).groupTable ι.group)).Sublist (tblIds (d.groupTable ι.group)) := by
    rw [h2, groupTable_setGroupTable_same, e1, e2]
    exact (List.Sublist.refl P).append (hsub.append (List.Sublist.refl S))
  have hother : ∀ g', g' ≠ ι.group → r.2.groupTable g' = d.groupTable g' := by
    intro g' hg
    rw [h2, groupTable_setGroupTable_ne _ _ _ _ hg]
  have hcomp : ∀ g', (tblIds (r.2.groupTable g')).Sublist (tblIds (d.groupTable g')) := by
    intro g'
    by_cases hgg : g' = ι.group
    · subst hgg
      exact htab
    · rw [hother g' hgg]
  rw [allIds_eq_groupTables, allIds_eq_groupTables]
  exact (hcomp .primary).append ((hcomp .post).append (hcomp .incoming))

theorem handle_allIds (d : ServerDispatcher ε φ) (h : String) (f : φ) :
    (d.handle h f).allIds = d.allIds := rfl

theorem runOp_IdsOk (d : ServerDispatcher ε φ) (op : SubOp ε φ)
    (d' : ServerDispatcher ε φ) (oid : Option OperationExternalIdentifier)
    (hr : d.runOp op = some (d', oid)) (hok : d.IdsOk) : d'.IdsOk := by
  obtain ⟨hnd, hlt⟩ := hok
  have hfresh : d.caseNumber ∉ d.allIds := fun hc => absurd (hlt _ hc) (lt_irrefl _)
  have hbind : ∀ g h f, ((d.bindListen g h f).1 : ServerDispatcher ε φ).IdsOk := by
    intro g h f
    rcases bindListen_allIds d g h f hfresh with ⟨P, S, h1, h2⟩
    rw [h1] at hnd hlt hfresh
    constructor
    · rw [h2, List.nodup_middle, List.nodup_cons]
      exact ⟨hfresh, hnd⟩
    · intro k hk
      rw [bindListen_caseNumber]
      rw [h2] at hk
      rcases List.mem_append.1 hk with hk' | hk'
      · exact Nat.lt_succ_of_lt (hlt _ (List.mem_append.2 (Or.inl hk')))
      · rcases List.mem_cons.1 hk' with hk'' | hk''
        · rw [hk'']
          exact Nat.lt_succ_self _
        · exact Nat.lt_succ_of_lt (hlt _ (List.mem_append.2 (Or.inr hk'')))
  cases op with
  | listen h f =>
    rw [ServerDispatcher.runOp] at hr
    injection hr with hr
    rw [show d' = (d.listen h f).1 from congrArg Prod.fst hr.symm]
    exact hbind _ _ _
  | listenPost h f =>
    rw [ServerDispatcher.runOp] at hr
    injection hr with hr
    rw [show d' = (d.listenPost h f).1 from congrArg Prod.fst hr.symm]
    exact hbind _ _ _
  | onOp h f =>
    rw [ServerDispatcher.runOp] at hr
    injection hr with hr
    rw [show d' = (d.on h f).1 from congrArg Prod.fst hr.symm]
    exact hbind _ _ _
  | handleOp h f =>
    rw [ServerDispatcher.runOp] at hr
    injection hr with hr
    rw [show d' = d.handle h f from congrArg Prod.fst hr.symm]
    exact ⟨hnd, fun k hk => hlt k hk⟩
  | unbindOp ι =>
    rcases hu : d.unbind ι with _ | r
    · rw [ServerDispatcher.runOp, hu] at hr
      exact absurd hr (by simp)
    · rw [ServerDispatcher.runOp, hu] at hr
      injection hr with hr
      rw [show d' = r.2 from congrArg Prod.fst hr.symm]
      have hsub := unbind_allIds_sublist d ι r hu
      refine ⟨hnd.sublist hsub, fun k hk => ?_⟩
      rw [unbind_caseNumber d ι r hu]
      exact hlt k (hsub.mem hk)
  | dispatchOp h =>
    rw [ServerDispatcher.runOp] at hr
    injection hr with hr
    rw [show d' = d from congrArg Prod.fst hr.symm]
    exact ⟨hnd, hlt⟩

theorem runOp_caseNumber_le (d : ServerDispatcher ε φ) (op : SubOp ε φ)
    (d' : ServerDispatcher ε φ) (oid : Option OperationExternalIdentifier)
    (hr : d.runOp op = some (d', oid)) : d.caseNumber ≤ d'.caseNumber := by
  cases op with
  | listen h f =>
    rw [ServerDispatcher.runOp] at hr
    injection hr with hr
    rw [show d' = (d.listen h f).1 from congrArg Prod.fst hr.symm]
    exact Nat.le_succ _
  | listenPost h f =>
    rw [ServerDispatcher.runOp] at hr
    injection hr with hr
    rw [show d' = (d.listenPost h f).1 from congrArg Prod.fst hr.symm]
    exact Nat.le_succ _
  | onOp h f =>
    rw [ServerDispatcher.runOp] at hr
    injection hr with hr
    rw [show d' = (d.on h f).1 from congrArg Prod.fst hr.symm]
    exact Nat.le_succ _
  | handleOp h f =>
    rw [ServerDispatcher.runOp] at hr
    injection hr with hr
    rw [show d' = d.handle h f from congrArg Prod.fst hr.symm, handle_caseNumber]
  | unbindOp ι =>
    rcases hu : d.unbind ι with _ | r
    · rw [ServerDispatcher.runOp, hu] at hr
      exact absurd hr (by simp)
    · rw [ServerDispatcher.runOp, hu] at hr
      injection hr with hr
      rw [show d' = r.2 from congrArg Prod.fst hr.symm, unbind_caseNumber d ι r hu]
  | dispatchOp h =>
    rw [ServerDispatcher.runOp] at hr
    injection hr with hr
    rw [show d' = d from congrArg Prod.fst hr.symm]

theorem runOp_returned_id (d : ServerDispatcher ε φ) (op : SubOp ε φ)
    (d' : ServerDispatcher ε φ) (ι : OperationExternalIdentifier)
    (hr : d.runOp op = some (d', some ι)) :
    ι.id = d.caseNumber ∧ d'.caseNumber = d.caseNumber + 1 := by
  cases op with
  | listen h f =>
    rw [ServerDispatcher.runOp] at hr
    injection hr with hr
    have h1 := congrArg Prod.fst hr
    have h2 := congrArg Prod.snd hr
    simp at h1 h2
    refine ⟨?_, ?_⟩
    · rw [← h2]
      rfl
    · rw [← h1]
      rfl
  | listenPost h f =>
    rw [ServerDispatcher.runOp] at hr
    injection hr with hr
    have h1 := congrArg Prod.fst hr
    have h2 := congrArg Prod.snd hr
    simp at h1 h2
    refine ⟨?_, ?_⟩
    · rw [← h2]
      rfl
    · rw [← h1]
      rfl
  | onOp h f =>
    rw [ServerDispatcher.runOp] at hr
    injection hr with hr
    have h1 := congrArg Prod.fst hr
    have h2 := congrArg Prod.snd hr
    simp at h1 h2
    refine ⟨?_, ?_⟩
    · rw [← h2]
      rfl
    · rw [← h1]
      rfl
  | handleOp h f =>
    rw [ServerDispatcher.runOp] at hr
    injection hr with hr
    exact absurd (congrArg Prod.snd hr) (by simp)
  | unbindOp ι' =>
    rcases hu : d.unbind ι' with _ | r
    · rw [ServerDispatcher.runOp, hu] at hr
      exact absurd hr (by simp)
    · rw [ServerDispatcher.runOp, hu] at hr
      injection hr with hr
      exact absurd (congrArg Prod.snd hr) (by simp)
  | dispatchOp h =>
    rw [ServerDispatcher.runOp] at hr
    injection hr with hr
    exact absurd (congrArg Prod.snd hr) (by simp)

theorem runIds_lb (ops : List (SubOp ε φ)) (d : ServerDispatcher ε φ) :
    ∀ k ∈ d.runIds ops, d.caseNumber ≤ k := by
  induction ops generalizing d with
  | nil =>
    intro k hk
    simp [ServerDispatcher.runIds] at hk
  | cons op ops ih =>
    intro k hk
    rw [ServerDispatcher.runIds] at hk
    rcases hr : d.runOp op with _ | r
    · rw [hr] at hk
      simp at hk
    · rw [hr] at hk
      rcases List.mem_append.1 hk with hk' | hk'
      · rcases ho : r.2 with _ | ι
        · rw [ho] at hk'
          simp at hk'
        · rw [ho] at hk'
          simp at hk'
          rw [hk']
          have := runOp_returned_id d op r.1 ι (by rw [hr, ← ho])
          omega
      · have hle := runOp_caseNumber_le d op r.1 r.2 (by rw [hr])
        exact le_trans hle (ih r.1 k hk')

theorem runIds_pairwise (ops : List (SubOp ε φ)) (d : ServerDispatcher ε φ) :
    List.Pairwise (· < ·) (d.runIds ops) := by
  induction ops generalizing d with
  | nil => exact List.Pairwise.nil
  | cons op ops ih =>
    rw [ServerDispatcher.runIds]
    rcases hr : d.runOp op with _ | r
    · exact List.Pairwise.nil
    · show List.Pairwise (· < ·) ((r.2.map fun ι => ι.id).toList ++ r.1.runIds ops)
      rcases ho : r.2 with _ | ι
      · exact ih r.1
      · simp only [Option.map_some', Option.toList_some, List.singleton_append]
        refine List.Pairwise.cons ?_ (ih r.1)
        intro k hk
        have h1 := runOp_returned_id d op r.1 ι (by rw [hr, ← ho])
        have h2 := runIds_lb ops r.1 k hk
        omega

theorem runOps_IdsOk (ops : List (SubOp ε φ)) (d d' : ServerDispatcher ε φ)
    (hr : d.runOps ops = some d') (hok : d.IdsOk) : d'.IdsOk := by
  induction ops generalizing d with
  | nil =>
    rw [ServerDispatcher.runOps] at hr
    rw [← Option.some.inj hr]
    exact hok
  | cons op ops ih =>
    rw [ServerDispatcher.runOps] at hr
    rcases ho : d.runOp op with _ | r
    · rw [ho] at hr
      exact absurd hr (by simp)
    · rw [ho] at hr
      exact ih r.1 hr (runOp_IdsOk d op r.1 r.2 (by rw [ho]) hok)

/-- Claim C7 (invariants): over any call sequence on a fresh dispatcher, the
registration ids returned by the subscribe calls (`listen`, `listenPost`,
`on`) are strictly increasing — hence pairwise distinct and never reused,
even after an `unbind` — and the ids stored across all handler tables of
the resulting instance are pairwise distinct. -/
theorem subscription_ids_strictly_increasing_and_never_reused
    (ops : List (SubOp ε φ)) (d' : ServerDispatcher ε φ)
    (hrun : ServerDispatcher.runOps .init ops = some d') :
    List.Pairwise (· < ·)
      (ServerDispatcher.runIds (ServerDispatcher.init : ServerDispatcher ε φ) ops) ∧
    d'.allIds.Nodup :=
  ⟨runIds_pairwise ops _, (runOps_IdsOk ops _ d' hrun init_IdsOk).1⟩

/-- Witness for C7: a run with listens, an `on`, an unbind, a dispatch and
a `handle`; the returned ids are `[0, 1, 2]`. -/
theorem subscription_ids_strictly_increasing_and_never_reused_witness :
    List.Pairwise (· < ·)
      (ServerDispatcher.runIds (ServerDispatcher.init : ServerDispatcher Nat Nat)
        [.listen "a" 1, .onOp "b" 2, .unbindOp ⟨.primary, "a", 0⟩, .listen "a" 3,
          .dispatchOp "a", .handleOp "q" 7]) ∧
    (ServerDispatcher.allIds
      { toBaseDispatcher :=
          { caseNumber := 3, boundOperations := [("a", [(2, 3)])], boundPostOperations := [] },
        incomingEvents := [("b", [(1, 2)])],
        incomingFunctions := [("q", 7)] }).Nodup :=
  subscription_ids_strictly_increasing_and_never_reused
    [.listen "a" 1, .onOp "b" 2, .unbindOp ⟨.primary, "a", 0⟩, .listen "a" 3,
      .dispatchOp "a", .handleOp "q" 7]
    { toBaseDispatcher :=
        { caseNumber := 3, boundOperations := [("a", [(2, 3)])], boundPostOperations := [] },
      incomingEvents := [("b", [(1, 2)])],
      incomingFunctions := [("q", 7)] }
    rfl

theorem bindListen_keyLive (d : ServerDispatcher ε φ) (g : TableGroup) (h : String)
    (f : ε) : ((d.bindListen g h f).1).keyLive g h := by
  rw [ServerDispatcher.keyLive, bindListen_groupTable_same, assocGet_assocSet_self]
  rfl

theorem bindListen_keyLive_mono (d : ServerDispatcher ε φ) (g₀ : TableGroup) (h₀ : String)
    (f : ε) (g : TableGroup) (h : String) (hl : d.keyLive g h) :
    ((d.bindListen g₀ h₀ f).1).keyLive g h := by
  by_cases hg : g = g₀
  · subst hg
    by_cases hh : h = h₀
    · subst hh
      exact bindListen_keyLive d g h f
    · rw [ServerDispatcher.keyLive, bindListen_groupTable_same,
        assocGet_assocSet_ne _ _ _ _ hh]
      exact hl
  · rw [ServerDispatcher.keyLive, bindListen_groupTable_ne _ _ _ _ _ hg]
    exact hl

theorem unbind_keyLive_mono (d : ServerDispatcher ε φ) (ι : OperationExternalIdentifier)
    (r : Bool × ServerDispatcher ε φ) (hs : d.unbind ι = some r)
    (g : TableGroup) (h : String) (hl : d.keyLive g h) : r.2.keyLive g h := by
  rcases unbind_state d ι r hs with ⟨m, _, h2⟩
  rw [ServerDispatcher.keyLive, h2]
  by_cases hg : g = ι.group
  · subst hg
    rw [groupTable_setGroupTable_same]
    by_cases hh : h = ι.handle
    · subst hh
      rw [assocGet_assocSet_self]
      rfl
    · rw [assocGet_assocSet_ne _ _ _ _ hh]
      exact hl
  · rw [groupTable_setGroupTable_ne _ _ _ _ hg]
    exact hl

theorem runOp_keyLive_mono (d : ServerDispatcher ε φ) (op : SubOp ε φ)
    (d' : ServerDispatcher ε φ) (oid : Option OperationExternalIdentifier)
    (hr : d.runOp op = some (d', oid)) (g : TableGroup) (h : String)
    (hl : d.keyLive g h) : d'.keyLive g h := by
  cases op with
  | listen h' f =>
    rw [ServerDispatcher.runOp] at hr
    injection hr with hr
    rw [show d' = (d.listen h' f).1 from congrArg Prod.fst hr.symm]
    exact bindListen_keyLive_mono d _ _ _ _ _ hl
  | listenPost h' f =>
    rw [ServerDispatcher.runOp] at hr
    injection hr with hr
    rw [show d' = (d.listenPost h' f).1 from congrArg Prod.fst hr.symm]
    exact bindListen_keyLive_mono d _ _ _ _ _ hl
  | onOp h' f =>
    rw [ServerDispatcher.runOp] at hr
    injection hr with hr
    rw [show d' = (d.on h' f).1 from congrArg Prod.fst hr.symm]
    exact bindListen_keyLive_mono d _ _ _ _ _ hl
  | handleOp h' f =>
    rw [ServerDispatcher.runOp] at hr
    injection hr with hr
    rw [show d' = d.handle h' f from congrArg Prod.fst hr.symm]
    rw [ServerDispatcher.keyLive, handle_groupTable]
    exact hl
  | unbindOp ι =>
    rcases hu : d.unbind ι with _ | r
    · rw [ServerDispatcher.runOp, hu] at hr
      exact absurd hr (by simp)
    · rw [ServerDispatcher.runOp, hu] at hr
      injection hr with hr
      rw [show d' = r.2 from congrArg Prod.fst hr.symm]
      exact unbind_keyLive_mono d ι r hu g h hl
  | dispatchOp h' =>
    rw [ServerDispatcher.runOp] at hr
    injection hr with hr
    rw [show d' = d from congrArg Prod.fst hr.symm]
    exact hl

theorem runOps_keyLive_mono (ops : List (SubOp ε φ)) (d d' : ServerDispatcher ε φ)
    (hr : d.runOps ops = some d') (g : TableGroup) (h : String)
    (hl : d.keyLive g h) : d'.keyLive g h := by
  induction ops generalizing d with
  | nil =>
    rw [ServerDispatcher.runOps] at hr
    rw [← Option.some.inj hr]
    exact hl
  | cons op ops ih =>
    rw [ServerDispatcher.runOps] at hr
    rcases ho : d.runOp op with _ | r
    · rw [ho] at hr
      exact absurd hr (by simp)
    · rw [ho] at hr
      exact ih r.1 hr (runOp_keyLive_mono d op r.1 r.2 (by rw [ho]) g h hl)

theorem runOp_issued_keyLive (d : ServerDispatcher ε φ) (op : SubOp ε φ)
    (d' : ServerDispatcher ε φ) (ι : OperationExternalIdentifier)
    (hr : d.runOp op = some (d', some ι)) : d'.keyLive ι.group ι.handle := by
  cases op with
  | listen h f =>
    rw [ServerDispatcher.runOp] at hr
    injection hr with hr
    have h1 := congrArg Prod.fst hr
    have h2 := congrArg Prod.snd hr
    simp at h1 h2
    rw [← h1, ← h2]
    exact bindListen_keyLive d _ _ _
  | listenPost h f =>
    rw [ServerDispatcher.runOp] at hr
    injection hr with hr
    have h1 := congrArg Prod.fst hr
    have h2 := congrArg Prod.snd hr
    simp at h1 h2
    rw [← h1, ← h2]
    exact bindListen_keyLive d _ _ _
  | onOp h f =>
    rw [ServerDispatcher.runOp] at hr
    injection hr with hr
    have h1 := congrArg Prod.fst hr
    have h2 := congrArg Prod.snd hr
    simp at h1 h2
    rw [← h1, ← h2]
    exact bindListen_keyLive d _ _ _
  | handleOp h f =>
    rw [ServerDispatcher.runOp] at hr
    injection hr with hr
    exact absurd (congrArg Prod.snd hr) (by simp)
  | unbindOp ι' =>
    rcases hu : d.unbind ι' with _ | r
    · rw [ServerDispatcher.runOp, hu] at hr
      exact absurd hr (by simp)
    · rw [ServerDispatcher.runOp, hu] at hr
      injection hr with hr
      exact absurd (congrArg Prod.snd hr) (by simp)
  | dispatchOp h =>
    rw [ServerDispatcher.runOp] at hr
    injection hr with hr
    exact absurd (congrArg Prod.snd hr) (by simp)

/-- Claim C9 (safety): unbinding an identifier that was returned by a
subscribe call (`listen`, `listenPost`, or `on` — exactly the calls that
return one) never raises, no matter how many further calls (unbinds,
dispatches, subscribes) happened in between: the per-handle map referenced
by the identifier's group was created at registration time and is never
removed, even when it becomes empty. -/
theorem unbind_of_issued_identifier_never_raises
    (d₁ d₂ d₃ : ServerDispatcher ε φ) (op : SubOp ε φ)
    (ι : OperationExternalIdentifier) (ops : List (SubOp ε φ))
    (hop : d₁.runOp op = some (d₂, some ι))
    (hrun : d₂.runOps ops = some d₃) :
    d₃.unbind ι ≠ none := by
  have hlive : d₃.keyLive ι.group ι.handle :=
    runOps_keyLive_mono ops d₂ d₃ hrun ι.group ι.handle
      (runOp_issued_keyLive d₁ op d₂ ι hop)
  rw [ServerDispatcher.keyLive] at hlive
  rcases hm : assocGet (d₃.groupTable ι.group) ι.handle with _ | m
  · rw [hm] at hlive
    simp at hlive
  · rw [ServerDispatcher.unbind, hm]
    simp

/-- Witness for C9: register under `"a"`, then unbind the returned
identifier twice and dispatch; the final unbind still raises nothing. -/
theorem unbind_of_issued_identifier_never_raises_witness :
    ServerDispatcher.unbind
      ((ServerDispatcher.runOps
          ((ServerDispatcher.init : ServerDispatcher Nat Nat).listen "a" 5).1
          [.unbindOp ⟨.primary, "a", 0⟩, .unbindOp ⟨.primary, "a", 0⟩,
            .dispatchOp "a"]).getD .init)
      ⟨.primary, "a", 0⟩ ≠ none :=
  unbind_of_issued_identifier_never_raises
    .init ((ServerDispatcher.init : ServerDispatcher Nat Nat).listen "a" 5).1 _
    (.listen "a" 5) ⟨.primary, "a", 0⟩
    [.unbindOp ⟨.primary, "a", 0⟩, .unbindOp ⟨.primary, "a", 0⟩, .dispatchOp "a"]
    rfl rfl

/-- Claim C10 (frame effect): `unbind` never modifies the function-responder
table; a responder registered with `handle(h, f)` remains the responder
for `h` across any sequence of calls that does not call `handle(h, ·)`
again; and `handle` returns no identifier (so no removal capability for
function responders exists). -/
theorem unbind_never_touches_function_responders :
    (∀ (d : ServerDispatcher ε φ) (ι : OperationExternalIdentifier)
        (r : Bool × ServerDispatcher ε φ), d.unbind ι = some r →
      r.2.incomingFunctions = d.incomingFunctions) ∧
    (∀ (d : ServerDispatcher ε φ) (h : String) (f : φ) (ops : List (SubOp ε φ))
        (d' : ServerDispatcher ε φ),
      (ops.all fun op => ¬op.isHandleFor h) = true →
      (d.handle h f).runOps ops = some d' →
      assocGet d'.incomingFunctions h = some f) ∧
    (∀ (d : ServerDispatcher ε φ) (h : String) (f : φ),
      d.runOp (.handleOp h f) = some (d.handle h f, none)) := by
  have hstep : ∀ (d : ServerDispatcher ε φ) (op : SubOp ε φ)
      (d' : ServerDispatcher ε φ) (oid : Option OperationExternalIdentifier) (h : String),
      d.runOp op = some (d', oid) → op.isHandleFor h = false →
      assocGet d'.incomingFunctions h = assocGet d.incomingFunctions h := by
    intro d op d' oid h hr hnf
    cases op with
    | listen h' f =>
      rw [ServerDispatcher.runOp] at hr
      injection hr with hr
      rw [show d' = (d.listen h' f).1 from congrArg Prod.fst hr.symm,
        show (d.listen h' f).1.incomingFunctions = d.incomingFunctions from
          bindListen_incomingFunctions d .primary h' f]
    | listenPost h' f =>
      rw [ServerDispatcher.runOp] at hr
      injection hr with hr
      rw [show d' = (d.listenPost h' f).1 from congrArg Prod.fst hr.symm,
        show (d.listenPost h' f).1.incomingFunctions = d.incomingFunctions from
          bindListen_incomingFunctions d .post h' f]
    | onOp h' f =>
      rw [ServerDispatcher.runOp] at hr
      injection hr with hr
      rw [show d' = (d.on h' f).1 from congrArg Prod.fst hr.symm,
        show (d.on h' f).1.incomingFunctions = d.incomingFunctions from
          bindListen_incomingFunctions d .incoming h' f]
    | handleOp h' f =>
      rw [ServerDispatcher.runOp] at hr
      injection hr with hr
      rw [show d' = d.handle h' f from congrArg Prod.fst hr.symm]
      have hne : h ≠ h' := by
        intro hc
        rw [SubOp.isHandleFor, hc] at hnf
        simp at hnf
      exact assocGet_assocSet_ne _ _ _ _ hne
    | unbindOp ι =>
      rcases hu : d.unbind ι with _ | r
      · rw [ServerDispatcher.runOp, hu] at hr
        exact absurd hr (by simp)
      · rw [ServerDispatcher.runOp, hu] at hr
        injection hr with hr
        rw [show d' = r.2 from congrArg Prod.fst hr.symm]
        rcases unbind_state d ι r hu with ⟨m, _, h2⟩
        rw [h2, setGroupTable_incomingFunctions]
    | dispatchOp h' =>
      rw [ServerDispatcher.runOp] at hr
      injection hr with hr
      rw [show d' = d from congrArg Prod.fst hr.symm]
  refine ⟨?_, ?_, ?_⟩
  · intro d ι r hs
    rcases unbind_state d ι r hs with ⟨m, _, h2⟩
    rw [h2, setGroupTable_incomingFunctions]
  · intro d h f ops
    have main : ∀ (e d' : ServerDispatcher ε φ),
        (ops.all fun op => ¬op.isHandleFor h) = true →
        e.runOps ops = some d' →
        assocGet d'.incomingFunctions h = assocGet e.incomingFunctions h := by
      clear d
      induction ops with
      | nil =>
        intro e d' _ hr
        rw [ServerDispatcher.runOps] at hr
        rw [← Option.some.inj hr]
      | cons op ops ih =>
        intro e d' hall hr
        rw [List.all_cons, Bool.and_eq_true] at hall
        rw [ServerDispatcher.runOps] at hr
        rcases ho : e.runOp op with _ | r
        · rw [ho] at hr
          exact absurd hr (by simp)
        · rw [ho] at hr
          rw [ih r.1 d' hall.2 hr]
          exact hstep e op r.1 r.2 h (by rw [ho]) (by
            rcases hb : op.isHandleFor h with _ | _
            · rfl
            · rw [hb] at hall
              simp at hall)
    intro d' hall hr
    rw [main (d.handle h f) d' hall hr]
    exact assocGet_assocSet_self ..
  · intro d h f
    rfl

/-- Witness for C10: concrete instantiations of all three parts. -/
theorem unbind_never_touches_function_responders_witness :
    (((ServerDispatcher.init : ServerDispatcher Nat Nat).listen "a" 5).1.unbind
        ⟨.primary, "a", 0⟩ = some (true, .init) →
      ((true, (ServerDispatcher.init : ServerDispatcher Nat Nat)) :
          Bool × ServerDispatcher Nat Nat).2.incomingFunctions =
        ((ServerDispatcher.init : ServerDispatcher Nat Nat).listen "a" 5).1.incomingFunctions) ∧
    assocGet
      ((ServerDispatcher.runOps
        ((ServerDispatcher.init : ServerDispatcher Nat Nat).handle "bar" 9)
        [.listen "x" 1, .unbindOp ⟨.primary, "x", 0⟩,
          .handleOp "other" 3]).getD .init).incomingFunctions
      "bar" = some 9 ∧
    (ServerDispatcher.init : ServerDispatcher Nat Nat).runOp (.handleOp "bar" 9) =
      some (ServerDispatcher.init.handle "bar" 9, none) := by
  refine ⟨?_, ?_, ?_⟩
  · intro hs
    exact unbind_never_touches_function_responders.1 _ _ _ hs
  · exact unbind_never_touches_function_responders.2.1
      .init "bar" 9 [.listen "x" 1, .unbindOp ⟨.primary, "x", 0⟩, .handleOp "other" 3]
      _ (by decide) rfl
  · exact unbind_never_touches_function_responders.2.2 _ _ _

theorem nextFrom_none (m : OperationIdArray β) (w : Nat) (h : nextFrom m w = none) :
    ∀ k f, (k, f) ∈ m → k < w := by
  induction m with
  | nil =>
    intro k f hk
    simp at hk
  | cons p rest ih =>
    obtain ⟨pk, pf⟩ := p
    intro k f hk
    rw [nextFrom] at h
    by_cases hp : pk < w
    · rw [if_pos hp] at h
      rcases List.mem_cons.1 hk with hk' | hk'
      · injection hk' with e1 e2
        omega
      · exact ih h k f hk'
    · rw [if_neg hp] at h
      rcases hn : nextFrom rest w with _ | q
      · rw [hn] at h
        simp at h
      · rw [hn] at h
        obtain ⟨qk, qf⟩ := q
        simp only [] at h
        by_cases hq : qk < pk
        · rw [if_pos hq] at h
          simp at h
        · rw [if_neg hq] at h
          simp at h

theorem nextFrom_mem (m : OperationIdArray β) (w : Nat) :
    ∀ k f, nextFrom m w = some (k, f) → (k, f) ∈ m ∧ w ≤ k := by
  induction m with
  | nil =>
    intro k f h
    simp [nextFrom] at h
  | cons p rest ih =>
    obtain ⟨pk, pf⟩ := p
    intro k f h
    rw [nextFrom] at h
    by_cases hp : pk < w
    · rw [if_pos hp] at h
      rcases ih k f h with ⟨h1, h2⟩
      exact ⟨List.mem_cons_of_mem _ h1, h2⟩
    · rw [if_neg hp] at h
      rcases hn : nextFrom rest w with _ | ⟨k', f'⟩
      · rw [hn] at h
        injection h with h
        injection h with h1 h2
        subst h1
        subst h2
        exact ⟨List.mem_cons_self .., Nat.le_of_not_lt hp⟩
      · rw [hn] at h
        simp only [] at h
        by_cases hk : k' < pk
        · rw [if_pos hk] at h
          injection h with h
          injection h with h1 h2
          subst h1
          subst h2
          rcases ih _ _ hn with ⟨h1, h2⟩
          exact ⟨List.mem_cons_of_mem _ h1, h2⟩
        · rw [if_neg hk] at h
          injection h with h
          injection h with h1 h2
          subst h1
          subst h2
          exact ⟨List.mem_cons_self .., Nat.le_of_not_lt hp⟩

theorem nextFrom_min (m : OperationIdArray β) (w : Nat) :
    ∀ k f, nextFrom m w = some (k, f) → ∀ k' f', (k', f') ∈ m → w ≤ k' → k ≤ k' := by
  induction m with
  | nil =>
    intro k f h
    simp [nextFrom] at h
  | cons p rest ih =>
    obtain ⟨pk, pf⟩ := p
    intro k f h k' f' hmem hw
    rw [nextFrom] at h
    by_cases hp : pk < w
    · rw [if_pos hp] at h
      rcases List.mem_cons.1 hmem with hmem' | hmem'
      · injection hmem' with e1 e2
        omega
      · exact ih k f h k' f' hmem' hw
    · rw [if_neg hp] at h
      rcases hn : nextFrom rest w with _ | q
      · rw [hn] at h
        injection h with h
        injection h with h1 h2
        subst h1
        rcases List.mem_cons.1 hmem with hmem' | hmem'
        · injection hmem' with e1 e2
          omega
        · have := nextFrom_none rest w hn k' f' hmem'
          omega
      · obtain ⟨qk, qf⟩ := q
        rw [hn] at h
        simp only [] at h
        by_cases hk : qk < pk
        · rw [if_pos hk] at h
          injection h with h
          injection h with h1 h2
          subst h1
          rcases List.mem_cons.1 hmem with hmem' | hmem'
          · injection hmem' with e1 e2
            omega
          · refine ih qk f ?_ k' f' hmem' hw
            rw [hn, h2]
        · rw [if_neg hk] at h
          injection h with h
          injection h with h1 h2
          subst h1
          rcases List.mem_cons.1 hmem with hmem' | hmem'
          · injection hmem' with e1 e2
            omega
          · have := ih qk qf hn k' f' hmem' hw
            omega

theorem phaseTable_setPhaseTable_same (d : BaseDispatcher α) (b : Bool)
    (t : ClassOperationMap α) : (d.setPhaseTable b t).phaseTable b = t := by
  cases b <;> rfl

theorem phaseTable_setPhaseTable_ne (d : BaseDispatcher α) (b b' : Bool)
    (t : ClassOperationMap α) (hb : b' ≠ b) :
    (d.setPhaseTable b t).phaseTable b' = d.phaseTable b' := by
  cases b <;> cases b' <;> first | rfl | exact absurd rfl hb

theorem setPhaseTable_caseNumber (d : BaseDispatcher α) (b : Bool)
    (t : ClassOperationMap α) : (d.setPhaseTable b t).caseNumber = d.caseNumber := by
  cases b <;> rfl

theorem caseNumber_update_phaseTable (d : BaseDispatcher α) (c : Nat) (b : Bool) :
    ({ d with caseNumber := c } : BaseDispatcher α).phaseTable b = d.phaseTable b := by
  cases b <;> rfl

theorem applyEffect_listen_eq (d : MState) (b : Bool) (h : String) (sub : MHandler) :
    applyEffect d (.listenEff b h sub) =
      { d.setPhaseTable b (assocSet (d.phaseTable b) h
          (assocSet ((assocGet (d.phaseTable b) h).getD []) d.caseNumber sub)) with
        caseNumber := d.caseNumber + 1 } := rfl

theorem applyEffect_unbind_none (d : MState) (b : Bool) (h : String) (id : Nat)
    (hm : assocGet (d.phaseTable b) h = none) :
    applyEffect d (.unbindEff b h id) = d := by
  simp only [applyEffect, hm]

theorem applyEffect_unbind_some (d : MState) (b : Bool) (h : String) (id : Nat)
    (m : OperationIdArray MHandler) (hm : assocGet (d.phaseTable b) h = some m) :
    applyEffect d (.unbindEff b h id) =
      d.setPhaseTable b (assocSet (d.phaseTable b) h (assocDelete m id).2) := by
  simp only [applyEffect, hm]

theorem tblIds_assocSet_mem (t : ClassOperationMap α) (h : String)
    (m' : OperationIdArray α) (k : Nat) (hk : k ∈ tblIds (assocSet t h m')) :
    k ∈ tblIds t ∨ k ∈ keysOf m' := by
  cases hm : assocGet t h with
  | none =>
    rw [assocSet_of_get_eq_none _ _ _ hm, tblIds_append] at hk
    rcases List.mem_append.1 hk with hk' | hk'
    · exact Or.inl hk'
    · rw [tblIds_cons, tblIds_nil, List.append_nil] at hk'
      exact Or.inr hk'
  | some m =>
    rcases tblIds_assocSet_split t h m m' hm with ⟨P, S, e1, e2⟩
    rw [e2] at hk
    rw [e1]
    rcases List.mem_append.1 hk with hk' | hk'
    · exact Or.inl (List.mem_append.2 (Or.inl hk'))
    · rcases List.mem_append.1 hk' with hk'' | hk''
      · exact Or.inr hk''
      · exact Or.inl (List.mem_append.2 (Or.inr (List.mem_append.2 (Or.inr hk''))))

theorem getD_keys_mem_tblIds (t : ClassOperationMap α) (h : String) (k : Nat)
    (hk : k ∈ keysOf ((assocGet t h).getD [])) : k ∈ tblIds t := by
  cases hm : assocGet t h with
  | none =>
    rw [hm] at hk
    simp [keysOf_nil] at hk
  | some m =>
    rw [hm] at hk
    exact mem_tblIds_of_get t h m hm k hk

theorem idsInMap_mem_tblIds (d : MState) (b : Bool) (h : String) (k : Nat)
    (hk : k ∈ idsInMap d b h) : k ∈ tblIds (d.phaseTable b) :=
  getD_keys_mem_tblIds _ _ _ hk

/-- An id present in a table after one handler effect was either already
present, or is the counter value the effect consumed (and then the counter
advanced). -/
theorem applyEffect_tblIds_sub (d : MState) (e : HEffect) (b : Bool) (k : Nat)
    (hk : k ∈ tblIds ((applyEffect d e).phaseTable b)) :
    k ∈ tblIds (d.phaseTable b) ∨
      (k = d.caseNumber ∧ (applyEffect d e).caseNumber = d.caseNumber + 1) := by
  cases e with
  | listenEff b₀ h₀ sub =>
    rw [applyEffect_listen_eq, caseNumber_update_phaseTable] at hk
    by_cases hb : b = b₀
    · subst hb
      rw [phaseTable_setPhaseTable_same] at hk
      rcases tblIds_assocSet_mem _ _ _ _ hk with hk' | hk'
      · exact Or.inl hk'
      · rcases keysOf_assocSet_subset _ _ _ _ hk' with hk'' | hk''
        · exact Or.inr ⟨hk'', rfl⟩
        · exact Or.inl (getD_keys_mem_tblIds _ _ _ hk'')
    · rw [phaseTable_setPhaseTable_ne _ _ _ _ hb] at hk
      exact Or.inl hk
  | unbindEff b₀ h₀ id =>
    cases hm : assocGet (d.phaseTable b₀) h₀ with
    | none =>
      rw [applyEffect_unbind_none _ _ _ _ hm] at hk
      exact Or.inl hk
    | some m =>
      rw [applyEffect_unbind_some _ _ _ _ _ hm] at hk
      by_cases hb : b = b₀
      · subst hb
        rw [phaseTable_setPhaseTable_same] at hk
        rcases tblIds_assocSet_mem _ _ _ _ hk with hk' | hk'
        · exact Or.inl hk'
        · exact Or.inl (mem_tblIds_of_get _ _ _ hm k
            (keysOf_assocDelete_subset _ _ _ hk'))
      · rw [phaseTable_setPhaseTable_ne _ _ _ _ hb] at hk
        exact Or.inl hk

/-- The per-handle version of `applyEffect_tblIds_sub`. -/
theorem applyEffect_idsInMap_sub (d : MState) (e : HEffect) (b : Bool) (h : String)
    (k : Nat) (hk : k ∈ idsInMap (applyEffect d e) b h) :
    k ∈ idsInMap d b h ∨ k = d.caseNumber := by
  cases e with
  | listenEff b₀ h₀ sub =>
    rw [idsInMap, applyEffect_listen_eq, caseNumber_update_phaseTable] at hk
    by_cases hb : b = b₀
    · subst hb
      rw [phaseTable_setPhaseTable_same] at hk
      by_cases hh : h = h₀
      · subst hh
        rw [assocGet_assocSet_self] at hk
        rcases keysOf_assocSet_subset _ _ _ _ (by
          simpa using hk) with hk' | hk'
        · exact Or.inr hk'
        · exact Or.inl hk'
      · rw [assocGet_assocSet_ne _ _ _ _ hh] at hk
        exact Or.inl hk
    · rw [phaseTable_setPhaseTable_ne _ _ _ _ hb] at hk
      exact Or.inl hk
  | unbindEff b₀ h₀ id =>
    cases hm : assocGet (d.phaseTable b₀) h₀ with
    | none =>
      rw [idsInMap, applyEffect_unbind_none _ _ _ _ hm] at hk
      exact Or.inl hk
    | some m =>
      rw [idsInMap, applyEffect_unbind_some _ _ _ _ _ hm] at hk
      by_cases hb : b = b₀
      · subst hb
        rw [phaseTable_setPhaseTable_same] at hk
        by_cases hh : h = h₀
        · subst hh
          rw [assocGet_assocSet_self] at hk
          refine Or.inl ?_
          rw [idsInMap, hm]
          exact keysOf_assocDelete_subset _ _ _ (by simpa using hk)
        · rw [assocGet_assocSet_ne _ _ _ _ hh] at hk
          exact Or.inl hk
      · rw [phaseTable_setPhaseTable_ne _ _ _ _ hb] at hk
        exact Or.inl hk

theorem applyEffect_caseNumber_le (d : MState) (e : HEffect) :
    d.caseNumber ≤ (applyEffect d e).caseNumber := by
  cases e with
  | listenEff b h sub => exact Nat.le_succ _
  | unbindEff b h id =>
    cases hm : assocGet (d.phaseTable b) h with
    | none => rw [applyEffect_unbind_none _ _ _ _ hm]
    | some m =>
      rw [applyEffect_unbind_some _ _ _ _ _ hm, setPhaseTable_caseNumber]

theorem applyEffects_caseNumber_le (effs : MHandler) (d : MState) :
    d.caseNumber ≤ (applyEffects d effs).caseNumber := by
  induction effs generalizing d with
  | nil => exact le_refl _
  | cons e effs ih =>
    exact le_trans (applyEffect_caseNumber_le d e) (ih (applyEffect d e))

/-- An id below the counter that is absent from a table stays absent (and
below the counter) across one handler invocation: handlers can only add
brand-new ids. -/
theorem applyEffects_fresh_tbl (effs : MHandler) (d : MState) (b : Bool) (k : Nat)
    (h1 : k < d.caseNumber) (h2 : k ∉ tblIds (d.phaseTable b)) :
    k < (applyEffects d effs).caseNumber ∧
      k ∉ tblIds ((applyEffects d effs).phaseTable b) := by
  induction effs generalizing d with
  | nil => exact ⟨h1, h2⟩
  | cons e effs ih =>
    refine ih (applyEffect d e) (lt_of_lt_of_le h1 (applyEffect_caseNumber_le d e)) ?_
    intro hk
    rcases applyEffect_tblIds_sub d e b k hk with hk' | hk'
    · exact h2 hk'
    · omega

/-- The per-handle version of `applyEffects_fresh_tbl`. -/
theorem applyEffects_fresh_map (effs : MHandler) (d : MState) (b : Bool) (h : String)
    (k : Nat) (h1 : k < d.caseNumber) (h2 : k ∉ idsInMap d b h) :
    k < (applyEffects d effs).caseNumber ∧
      k ∉ idsInMap (applyEffects d effs) b h := by
  induction effs generalizing d with
  | nil => exact ⟨h1, h2⟩
  | cons e effs ih =>
    refine ih (applyEffect d e) (lt_of_lt_of_le h1 (applyEffect_caseNumber_le d e)) ?_
    intro hk
    rcases applyEffect_idsInMap_sub d e b h k hk with hk' | hk'
    · exact h2 hk'
    · omega

theorem applyEffect_MWF (d : MState) (e : HEffect) (hwf : MWF d) :
    MWF (applyEffect d e) := by
  obtain ⟨hbound, hdisj⟩ := hwf
  have hdisj' : ∀ b, ∀ k ∈ tblIds (d.phaseTable b), k ∉ tblIds (d.phaseTable (!b)) := by
    intro b k hk hk'
    cases b with
    | false => exact hdisj k hk hk'
    | true => exact hdisj k hk' hk
  cases e with
  | listenEff b₀ h₀ sub =>
    have hother : ∀ b, b ≠ b₀ →
        (applyEffect d (.listenEff b₀ h₀ sub)).phaseTable b = d.phaseTable b := by
      intro b hb
      rw [applyEffect_listen_eq, caseNumber_update_phaseTable,
        phaseTable_setPhaseTable_ne _ _ _ _ hb]
    have hmem : ∀ b k, k ∈ tblIds ((applyEffect d (.listenEff b₀ h₀ sub)).phaseTable b) →
        k ∈ tblIds (d.phaseTable b) ∨ (k = d.caseNumber ∧ b = b₀) := by
      intro b k hk
      by_cases hb : b = b₀
      · subst hb
        rcases applyEffect_tblIds_sub d (.listenEff b h₀ sub) b k hk with hk' | hk'
        · exact Or.inl hk'
        · exact Or.inr ⟨hk'.1, rfl⟩
      · rw [hother b hb] at hk
        exact Or.inl hk
    constructor
    · intro b k hk
      rw [show (applyEffect d (.listenEff b₀ h₀ sub)).caseNumber = d.caseNumber + 1 from rfl]
      rcases hmem b k hk with hk' | hk'
      · exact Nat.lt_succ_of_lt (hbound b k hk')
      · omega
    · intro k hk hk'
      rcases hmem false k hk with h1 | h1 <;> rcases hmem true k hk' with h2 | h2
      · exact hdisj k h1 h2
      · rw [h2.1] at h1
        exact absurd (hbound false _ h1) (lt_irrefl _)
      · rw [h1.1] at h2
        exact absurd (hbound true _ h2) (lt_irrefl _)
      · exact Bool.false_ne_true (h1.2.trans h2.2.symm)
  | unbindEff b₀ h₀ id =>
    have hsub : ∀ b k, k ∈ tblIds ((applyEffect d (.unbindEff b₀ h₀ id)).phaseTable b) →
        k ∈ tblIds (d.phaseTable b) := by
      intro b k hk
      rcases applyEffect_tblIds_sub d (.unbindEff b₀ h₀ id) b k hk with hk' | hk'
      · exact hk'
      · exfalso
        have hc := hk'.2
        cases hm : assocGet (d.phaseTable b₀) h₀ with
        | none => rw [applyEffect_unbind_none _ _ _ _ hm] at hc; omega
        | some m =>
          rw [applyEffect_unbind_some _ _ _ _ _ hm, setPhaseTable_caseNumber] at hc
          omega
    have hcase : (applyEffect d (.unbindEff b₀ h₀ id)).caseNumber = d.caseNumber := by
      cases hm : assocGet (d.phaseTable b₀) h₀ with
      | none => rw [applyEffect_unbind_none _ _ _ _ hm]
      | some m => rw [applyEffect_unbind_some _ _ _ _ _ hm, setPhaseTable_caseNumber]
    constructor
    · intro b k hk
      rw [hcase]
      exact hbound b k (hsub b k hk)
    · intro k hk hk'
      exact hdisj k (hsub false k hk) (hsub true k hk')

theorem applyEffects_MWF (effs : MHandler) (d : MState) (hwf : MWF d) :
    MWF (applyEffects d effs) := by
  induction effs generalizing d with
  | nil => exact hwf
  | cons e effs ih => exact ih (applyEffect d e) (applyEffect_MWF d e hwf)

theorem MWF_disj (d : MState) (hwf : MWF d) (b : Bool) (k : Nat)
    (hk : k ∈ tblIds (d.phaseTable b)) : k ∉ tblIds (d.phaseTable (!b)) := by
  cases b with
  | false => exact hwf.2 k hk
  | true => exact fun hk' => hwf.2 k hk' hk

theorem runPhase_log_lb (b : Bool) (h : String) (fuel : Nat) :
    ∀ w d k, k ∈ (runPhase b h fuel w d).2.1 → w ≤ k := by
  induction fuel with
  | zero =>
    intro w d k hk
    simp [runPhase] at hk
  | succ fuel ih =>
    intro w d k hk
    rw [runPhase] at hk
    rcases hn : nextFrom ((assocGet (d.phaseTable b) h).getD []) w with _ | ⟨k₀, effs⟩
    · rw [hn] at hk
      simp at hk
    · rw [hn] at hk
      simp only [] at hk
      rcases List.mem_cons.1 hk with hk' | hk'
      · rw [hk']
        exact (nextFrom_mem _ _ _ _ hn).2
      · have h1 := ih (k₀ + 1) (applyEffects d effs) k hk'
        have h2 := (nextFrom_mem _ _ _ _ hn).2
        omega

theorem runPhase_log_sorted (b : Bool) (h : String) (fuel : Nat) :
    ∀ w d, List.Pairwise (· < ·) (runPhase b h fuel w d).2.1 := by
  induction fuel with
  | zero =>
    intro w d
    simp [runPhase]
  | succ fuel ih =>
    intro w d
    rw [runPhase]
    rcases hn : nextFrom ((assocGet (d.phaseTable b) h).getD []) w with _ | ⟨k₀, effs⟩
    · exact List.Pairwise.nil
    · simp only []
      refine List.Pairwise.cons ?_ (ih (k₀ + 1) (applyEffects d effs))
      intro j hj
      have := runPhase_log_lb b h fuel (k₀ + 1) (applyEffects d effs) j hj
      omega

theorem runPhase_caseNumber_le (b : Bool) (h : String) (fuel : Nat) :
    ∀ w d, d.caseNumber ≤ (runPhase b h fuel w d).1.caseNumber := by
  induction fuel with
  | zero =>
    intro w d
    simp [runPhase]
  | succ fuel ih =>
    intro w d
    rw [runPhase]
    rcases hn : nextFrom ((assocGet (d.phaseTable b) h).getD []) w with _ | ⟨k₀, effs⟩
    · exact le_refl _
    · simp only []
      exact le_trans (applyEffects_caseNumber_le effs d)
        (ih (k₀ + 1) (applyEffects d effs))

theorem runPhase_fresh_tbl (b : Bool) (h : String) (fuel : Nat) :
    ∀ w d (b' : Bool) k, k < d.caseNumber → k ∉ tblIds (d.phaseTable b') →
      k < (runPhase b h fuel w d).1.caseNumber ∧
        k ∉ tblIds ((runPhase b h fuel w d).1.phaseTable b') := by
  induction fuel with
  | zero =>
    intro w d b' k h1 h2
    exact ⟨h1, h2⟩
  | succ fuel ih =>
    intro w d b' k h1 h2
    rw [runPhase]
    rcases hn : nextFrom ((assocGet (d.phaseTable b) h).getD []) w with _ | ⟨k₀, effs⟩
    · exact ⟨h1, h2⟩
    · simp only []
      rcases applyEffects_fresh_tbl effs d b' k h1 h2 with ⟨h1', h2'⟩
      exact ih (k₀ + 1) (applyEffects d effs) b' k h1' h2'

theorem runPhase_fresh_map (b : Bool) (h : String) (fuel : Nat) :
    ∀ w d (b' : Bool) (h' : String) k, k < d.caseNumber → k ∉ idsInMap d b' h' →
      k < (runPhase b h fuel w d).1.caseNumber ∧
        k ∉ idsInMap (runPhase b h fuel w d).1 b' h' := by
  induction fuel with
  | zero =>
    intro w d b' h' k h1 h2
    exact ⟨h1, h2⟩
  | succ fuel ih =>
    intro w d b' h' k h1 h2
    rw [runPhase]
    rcases hn : nextFrom ((assocGet (d.phaseTable b) h).getD []) w with _ | ⟨k₀, effs⟩
    · exact ⟨h1, h2⟩
    · simp only []
      rcases applyEffects_fresh_map effs d b' h' k h1 h2 with ⟨h1', h2'⟩
      exact ih (k₀ + 1) (applyEffects d effs) b' h' k h1' h2'

theorem runPhase_MWF (b : Bool) (h : String) (fuel : Nat) :
    ∀ w d, MWF d → MWF (runPhase b h fuel w d).1 := by
  induction fuel with
  | zero =>
    intro w d hwf
    exact hwf
  | succ fuel ih =>
    intro w d hwf
    rw [runPhase]
    rcases hn : nextFrom ((assocGet (d.phaseTable b) h).getD []) w with _ | ⟨k₀, effs⟩
    · exact hwf
    · simp only []
      exact ih (k₀ + 1) (applyEffects d effs) (applyEffects_MWF effs d hwf)

/-- Ids that are below the counter and absent from the phase's own table
are never logged by that phase. -/
theorem runPhase_not_logged (b : Bool) (h : String) (fuel : Nat) :
    ∀ w d k, k < d.caseNumber → k ∉ tblIds (d.phaseTable b) →
      k ∉ (runPhase b h fuel w d).2.1 := by
  induction fuel with
  | zero =>
    intro w d k _ _ hk
    simp [runPhase] at hk
  | succ fuel ih =>
    intro w d k h1 h2 hk
    rw [runPhase] at hk
    rcases hn : nextFrom ((assocGet (d.phaseTable b) h).getD []) w with _ | ⟨k₀, effs⟩
    · rw [hn] at hk
      simp at hk
    · rw [hn] at hk
      simp only [] at hk
      rcases List.mem_cons.1 hk with hk' | hk'
      · subst hk'
        exact h2 (getD_keys_mem_tblIds _ _ _ (by
          rcases nextFrom_mem _ _ _ _ hn with ⟨hmem, _⟩
          exact (mem_keysOf_iff _ _).2 ⟨effs, hmem⟩))
      · rcases applyEffects_fresh_tbl effs d b k h1 h2 with ⟨h1', h2'⟩
        exact ih (k₀ + 1) (applyEffects d effs) k h1' h2' hk'

/-- Every id logged by a phase is, at the end of the phase, below the
counter and absent from the *other* phase's table. -/
theorem runPhase_logged_safe (b : Bool) (h : String) (fuel : Nat) :
    ∀ w d, MWF d → ∀ k ∈ (runPhase b h fuel w d).2.1,
      k < (runPhase b h fuel w d).1.caseNumber ∧
        k ∉ tblIds ((runPhase b h fuel w d).1.phaseTable (!b)) := by
  induction fuel with
  | zero =>
    intro w d _ k hk
    simp [runPhase] at hk
  | succ fuel ih =>
    intro w d hwf k hk
    rw [runPhase] at hk ⊢
    rcases hn : nextFrom ((assocGet (d.phaseTable b) h).getD []) w with _ | ⟨k₀, effs⟩
    · rw [hn] at hk
      simp at hk
    · rw [hn] at hk
      simp only [] at hk ⊢
      rcases List.mem_cons.1 hk with hk' | hk'
      · subst hk'
        have hmem : k ∈ tblIds (d.phaseTable b) :=
          getD_keys_mem_tblIds _ _ _ (by
            rcases nextFrom_mem _ _ _ _ hn with ⟨hmem, _⟩
            exact (mem_keysOf_iff _ _).2 ⟨effs, hmem⟩)
        have h1 : k < d.caseNumber := hwf.1 b k hmem
        have h2 : k ∉ tblIds (d.phaseTable (!b)) := MWF_disj d hwf b k hmem
        rcases applyEffects_fresh_tbl effs d (!b) k h1 h2 with ⟨h1', h2'⟩
        exact runPhase_fresh_tbl b h fuel (k + 1) (applyEffects d effs) (!b) k h1' h2'
      · exact ih (k₀ + 1) (applyEffects d effs) (applyEffects_MWF effs d hwf) k hk'

/-- No handler due to run is skipped: an id in the phase's per-handle map
(at or past the watermark) is either invoked during the phase or absent
from that map when the phase completes (i.e. some handler unbound it before
its turn). -/
theorem runPhase_no_skip (b : Bool) (h : String) (fuel : Nat) :
    ∀ w d k, MWF d → k ∈ idsInMap d b h → w ≤ k →
      (runPhase b h fuel w d).2.2 = true →
      k ∈ (runPhase b h fuel w d).2.1 ∨ k ∉ idsInMap (runPhase b h fuel w d).1 b h := by
  induction fuel with
  | zero =>
    intro w d k _ _ _ hok
    simp [runPhase] at hok
  | succ fuel ih =>
    intro w d k hwf hk hw hok
    rw [runPhase] at hok ⊢
    rcases hfk : (mem_keysOf_iff ((assocGet (d.phaseTable b) h).getD []) k).1 hk
      with ⟨fk, hfk'⟩
    rcases hn : nextFrom ((assocGet (d.phaseTable b) h).getD []) w with _ | ⟨k₀, effs⟩
    · exact absurd (nextFrom_none _ _ hn k fk hfk') (by omega)
    · rw [hn] at hok
      simp only [] at hok ⊢
      have hk₀ : k₀ ≤ k := nextFrom_min _ _ _ _ hn k fk hfk' hw
      by_cases heq : k₀ = k
      · exact Or.inl (List.mem_cons.2 (Or.inl heq.symm))
      · have hlt : k₀ < k := lt_of_le_of_ne hk₀ heq
        by_cases hstill : k ∈ idsInMap (applyEffects d effs) b h
        · rcases ih (k₀ + 1) (applyEffects d effs) k (applyEffects_MWF effs d hwf)
            hstill (by omega) hok with hc | hc
          · exact Or.inl (List.mem_cons.2 (Or.inr hc))
          · exact Or.inr hc
        · have h1 : k < d.caseNumber := hwf.1 b k (idsInMap_mem_tblIds d b h k hk)
          have h1' : k < (applyEffects d effs).caseNumber :=
            lt_of_lt_of_le h1 (applyEffects_caseNumber_le effs d)
          exact Or.inr ((runPhase_fresh_map b h fuel (k₀ + 1) (applyEffects d effs)
            b h k h1' hstill).2)

/-- Claim C6 (invariants): during a single dispatch pass with re-entrant
handlers that may register and unregister other handlers mid-iteration, no
registration is invoked more than once per pass (the log of invoked ids has
no duplicates), and a handler that was in the per-handle set at the start
of the pass is never silently skipped: it is either invoked during the
pass or was removed from the set during the pass before its turn (so it is
absent when the pass completes).  This holds for the primary and the post
phase alike. -/
theorem dispatch_pass_no_double_invoke_and_no_skip
    (fuel : Nat) (d : MState) (handle : String) (hwf : MWF d)
    (hok : (dispatchRun fuel d handle).2.2 = true) :
    (dispatchRun fuel d handle).2.1.Nodup ∧
    (∀ k ∈ idsInMap d false handle,
      k ∈ (dispatchRun fuel d handle).2.1 ∨
        k ∉ idsInMap (dispatchRun fuel d handle).1 false handle) ∧
    (∀ k ∈ idsInMap d true handle,
      k ∈ (dispatchRun fuel d handle).2.1 ∨
        k ∉ idsInMap (dispatchRun fuel d handle).1 true handle) := by
  have hmapP : idsInMap d false handle = keysOf ((assocGet d.boundOperations handle).getD []) := rfl
  have hmapQ : idsInMap d true handle = keysOf ((assocGet d.boundPostOperations handle).getD []) := rfl
  by_cases hp : (assocGet d.boundOperations handle).isSome <;>
    by_cases hq : (assocGet d.boundPostOperations handle).isSome
  · -- both queues exist
    simp only [dispatchRun, hp, hq, if_true] at hok ⊢
    rw [Bool.and_eq_true] at hok
    rcases hok with ⟨ok1, ok2⟩
    have hwf1 : MWF (runPhase false handle fuel 0 d).1 := runPhase_MWF false handle fuel 0 d hwf
    refine ⟨?_, ?_, ?_⟩
    · refine List.Nodup.append
        ((runPhase_log_sorted false handle fuel 0 d).imp fun hlt => ne_of_lt hlt)
        ((runPhase_log_sorted true handle fuel 0 (runPhase false handle fuel 0 d).1).imp
          fun hlt => ne_of_lt hlt) ?_
      intro a ha ha'
      rcases runPhase_logged_safe false handle fuel 0 d hwf a ha with ⟨h1, h2⟩
      exact runPhase_not_logged true handle fuel 0 (runPhase false handle fuel 0 d).1
        a h1 h2 ha'
    · intro k hk
      rcases runPhase_no_skip false handle fuel 0 d k hwf hk (Nat.zero_le k) ok1 with hc | hc
      · exact Or.inl (List.mem_append.2 (Or.inl hc))
      · refine Or.inr ?_
        have h1 : k < d.caseNumber := hwf.1 false k (idsInMap_mem_tblIds d false handle k hk)
        have h1' : k < (runPhase false handle fuel 0 d).1.caseNumber :=
          lt_of_lt_of_le h1 (runPhase_caseNumber_le false handle fuel 0 d)
        exact (runPhase_fresh_map true handle fuel 0 (runPhase false handle fuel 0 d).1
          false handle k h1' hc).2
    · intro k hk
      by_cases hmid : k ∈ idsInMap (runPhase false handle fuel 0 d).1 true handle
      · rcases runPhase_no_skip true handle fuel 0 (runPhase false handle fuel 0 d).1 k
          hwf1 hmid (Nat.zero_le k) ok2 with hc | hc
        · exact Or.inl (List.mem_append.2 (Or.inr hc))
        · exact Or.inr hc
      · refine Or.inr ?_
        have h1 : k < d.caseNumber := hwf.1 true k (idsInMap_mem_tblIds d true handle k hk)
        have h1' : k < (runPhase false handle fuel 0 d).1.caseNumber :=
          lt_of_lt_of_le h1 (runPhase_caseNumber_le false handle fuel 0 d)
        exact (runPhase_fresh_map true handle fuel 0 (runPhase false handle fuel 0 d).1
          true handle k h1' hmid).2
  · -- only the primary queue exists
    have hq' : idsInMap d true handle = [] := by
      rw [hmapQ, Option.not_isSome_iff_eq_none.1 hq]
      rfl
    simp only [dispatchRun, hp, hq, if_true, Bool.false_eq_true, if_false,
      Bool.and_true, List.append_nil] at hok ⊢
    refine ⟨(runPhase_log_sorted false handle fuel 0 d).imp fun hlt => ne_of_lt hlt, ?_, ?_⟩
    · intro k hk
      exact runPhase_no_skip false handle fuel 0 d k hwf hk (Nat.zero_le k) hok
    · intro k hk
      rw [hq'] at hk
      simp at hk
  · -- only the post queue exists
    have hp' : idsInMap d false handle = [] := by
      rw [hmapP, Option.not_isSome_iff_eq_none.1 hp]
      rfl
    simp only [dispatchRun, hp, hq, if_true, Bool.false_eq_true, if_false,
      Bool.true_and, List.nil_append] at hok ⊢
    refine ⟨(runPhase_log_sorted true handle fuel 0 d).imp fun hlt => ne_of_lt hlt, ?_, ?_⟩
    · intro k hk
      rw [hp'] at hk
      simp at hk
    · intro k hk
      exact runPhase_no_skip true handle fuel 0 d k hwf hk (Nat.zero_le k) hok
  · -- neither queue exists
    have hp' : idsInMap d false handle = [] := by
      rw [hmapP, Option.not_isSome_iff_eq_none.1 hp]
      rfl
    have hq' : idsInMap d true handle = [] := by
      rw [hmapQ, Option.not_isSome_iff_eq_none.1 hq]
      rfl
    simp only [dispatchRun, hp, hq, Bool.false_eq_true, if_false, List.nil_append]
    refine ⟨List.nodup_nil, ?_, ?_⟩
    · intro k hk
      rw [hp'] at hk
      simp at hk
    · intro k hk
      rw [hq'] at hk
      simp at hk

/-- Witness for C6: handler 0 unbinds handler 1 (due later in the same
pass) and registers a fresh post handler mid-pass; the pass completes
within fuel 10. -/
theorem dispatch_pass_no_double_invoke_and_no_skip_witness :
    (dispatchRun 10
      { caseNumber := 3,
        boundOperations := [("a", [(0, [HEffect.unbindEff false "a" 1,
          HEffect.listenEff true "a" []]), (1, []), (2, [])])],
        boundPostOperations := [("a", [])] } "a").2.1.Nodup ∧
    (∀ k ∈ idsInMap
      { caseNumber := 3,
        boundOperations := [("a", [(0, [HEffect.unbindEff false "a" 1,
          HEffect.listenEff true "a" []]), (1, []), (2, [])])],
        boundPostOperations := [("a", [])] } false "a",
      k ∈ (dispatchRun 10
        { caseNumber := 3,
          boundOperations := [("a", [(0, [HEffect.unbindEff false "a" 1,
            HEffect.listenEff true "a" []]), (1, []), (2, [])])],
          boundPostOperations := [("a", [])] } "a").2.1 ∨
        k ∉ idsInMap (dispatchRun 10
          { caseNumber := 3,
            boundOperations := [("a", [(0, [HEffect.unbindEff false "a" 1,
              HEffect.listenEff true "a" []]), (1, []), (2, [])])],
            boundPostOperations := [("a", [])] } "a").1 false "a") ∧
    (∀ k ∈ idsInMap
      { caseNumber := 3,
        boundOperations := [("a", [(0, [HEffect.unbindEff false "a" 1,
          HEffect.listenEff true "a" []]), (1, []), (2, [])])],
        boundPostOperations := [("a", [])] } true "a",
      k ∈ (dispatchRun 10
        { caseNumber := 3,
          boundOperations := [("a", [(0, [HEffect.unbindEff false "a" 1,
            HEffect.listenEff true "a" []]), (1, []), (2, [])])],
          boundPostOperations := [("a", [])] } "a").2.1 ∨
        k ∉ idsInMap (dispatchRun 10
          { caseNumber := 3,
            boundOperations := [("a", [(0, [HEffect.unbindEff false "a" 1,
              HEffect.listenEff true "a" []]), (1, []), (2, [])])],
            boundPostOperations := [("a", [])] } "a").1 true "a") :=
  dispatch_pass_no_double_invoke_and_no_skip 10
    { caseNumber := 3,
      boundOperations := [("a", [(0, [HEffect.unbindEff false "a" 1,
        HEffect.listenEff true "a" []]), (1, []), (2, [])])],
      boundPostOperations := [("a", [])] } "a"
    (by
      constructor
      · intro b
        cases b <;> decide
      · decide)
    rfl

/-- Claim C8 (safety): dispatching a handle absent from both the primary and
the post table is a no-op: no handler is invoked, nothing is raised, and
the dispatcher state is left unchanged.  Stated both for the pure fan-out
(`dispatchCalls` produces no calls) and for the re-entrant semantics
(`dispatchRun` returns the unchanged state, an empty log, and completes —
with any fuel, since no iteration happens). -/
theorem dispatch_unknown_handle_is_noop {σ A : Type} :
    (∀ (d : BaseDispatcher σ) (h : String) (args : A),
      assocGet d.boundOperations h = none → assocGet d.boundPostOperations h = none →
      d.dispatchCalls h args = []) ∧
    (∀ (fuel : Nat) (m : MState) (h : String),
      assocGet m.boundOperations h = none → assocGet m.boundPostOperations h = none →
      dispatchRun fuel m h = (m, ([], true))) := by
  constructor
  · intro d h args h1 h2
    rw [BaseDispatcher.dispatchCalls, h1, h2]
    rfl
  · intro fuel m h h1 h2
    simp only [dispatchRun, h1, h2, Option.isSome_none, Bool.false_eq_true, if_false,
      List.nil_append, Bool.and_self]

/-- Witness for C8: a dispatcher with registrations under `"b"` dispatching
the unregistered handle `"z"`. -/
theorem dispatch_unknown_handle_is_noop_witness :
    BaseDispatcher.dispatchCalls
      { caseNumber := 1, boundOperations := [("b", [(0, 7)])], boundPostOperations := [] }
      "z" [5] = ([] : List (Nat × List Nat)) ∧
    dispatchRun 9
      { caseNumber := 1, boundOperations := [("b", [(0, [])])], boundPostOperations := [] }
      "z" =
      ({ caseNumber := 1, boundOperations := [("b", [(0, [])])], boundPostOperations := [] },
        ([], true)) :=
  ⟨(dispatch_unknown_handle_is_noop (σ := Nat) (A := List Nat)).1
      { caseNumber := 1, boundOperations := [("b", [(0, 7)])], boundPostOperations := [] }
      "z" [5] rfl rfl,
    (dispatch_unknown_handle_is_noop (σ := Nat) (A := List Nat)).2 9
      { caseNumber := 1, boundOperations := [("b", [(0, [])])], boundPostOperations := [] }
      "z" rfl rfl⟩
